import Mathlib

/-!
Shallow embedding of `Script/data_loader.py` (repository
`Tencent-Ads-Algo-Comp-2020`): the training and inference batch loaders.

Modelling conventions:
* token identifiers are `Nat`, embedding vectors are `List Int`
  (the claims under study concern shapes and exact zeros, never float
  arithmetic), a per-sample embedded sequence is a `List` of row vectors;
* external artifacts on disk (the `.npy` label file, the `.pkl` raw token
  sequence files, the gensim `Word2Vec` models) are modelled by an
  `Artifacts` environment mapping a path to the deserialized content, or
  `none` when the file is absent or unreadable;
* a gensim `Word2Vec` model has a fixed `vector_size`, so the model type
  carries the proof that every vector it returns has that length;
* Python exceptions become the `LoaderError` type; `StopIteration` is the
  `Option.none` result of `next`, everything fatal is `Except.error`;
* `np.random.shuffle` is modelled by an explicit permutation-producing
  function `perm` handed to the constructor; theorems about shuffling
  hypothesise that `perm` permutes its input.
-/

namespace DataLoader

/-- Error kinds surfaced by the loader, one per Python exception class that
the code in `data_loader.py` can raise. -/
inductive LoaderError where
  /-- Python `AssertionError` from the constructor argument asserts
  (the spec calls this `ConfigurationError`). -/
  | configError
  /-- deserialization failure (`np.load` / `pickle.load` / `Word2Vec.load`
  on a missing or unreadable artifact); the spec's `FormatError`. -/
  | formatError
  /-- Python `KeyError` (a `LookupError`): a token absent from the word2vec
  vocabulary, or a registry key miss. -/
  | lookupError
  /-- Python `ValueError` from `np.stack` on an empty list of arrays. -/
  | valueError
  /-- Python `AssertionError` at line 74: label count differs from channel-0
  sample count (the spec's `ShapeMismatchError`). -/
  | shapeMismatchError
  /-- Python `IndexError`: a list index out of range. -/
  | indexError
  /-- Python `ZeroDivisionError` from `divmod(self.len, 0)`. -/
  | zeroDivisionError
  /-- Torch `RuntimeError` from `pad_sequence` on sequences
  with inconsistent trailing dimensions or an empty batch. -/
  | runtimeError
deriving DecidableEq, Repr

/-- An embedding vector (one row of `w2v_model.wv[item]`). -/
abbrev Vec := List Int

/-- One sample's embedded sequence: the result of `np.stack` over the
looked-up vectors, a matrix of shape `(truncated_length, embedding_dim)`. -/
abbrev Mat := List Vec

/-- One channel's padded batch tensor of shape
`(window_length, local_max_len, embedding_dim)`. -/
abbrev Tensor3 := List Mat

/-- A `gensim.models.Word2Vec` artifact: `wv` looks a token up
(`none` = `KeyError`), and every stored vector has length `vector_size`
(`dim`), which is a structural property of the gensim model. -/
structure W2VModel where
  dim : Nat
  wv : Nat → Option Vec
  wv_dim : ∀ t v, wv t = some v → v.length = dim

/-- The file system as the loader sees it: deserialized content by path.
`labels` models `np.load` on a `.npy` file, `seqs` models `pickle.load`
on a `.pkl` file, `w2v` models `Word2Vec.load`. -/
structure Artifacts where
  labels : String → Option (List Int)
  seqs : String → Option (List (List Nat))
  w2v : String → Option W2VModel

/-- The characters after the last dot (the whole string when it has no
dot), mirroring Python's `s.split('.')[-1]`. -/
def lastDotComponent (cs : List Char) : List Char :=
  cs.foldl (fun acc c => if c = '.' then [] else acc ++ [c]) []

/-- Python's `path.split('.')[-1]`, used by the suffix asserts. -/
def pySuffix (s : String) : String :=
  String.mk (lastDotComponent s.data)

/-- Lookup in the `w2v_registry` dict (modelled as an association list
with distinct keys). -/
def lookupStr (reg : List (String × String)) (k : String) : Option String :=
  match reg with
  | [] => none
  | (a, b) :: rest => if a = k then some b else lookupStr rest k

/-- Run an `Option`-valued function over a list, failing when any element
fails (the effect of a Python list comprehension whose body may raise). -/
def mapOpt (f : α → Option β) : List α → Option (List β)
  | [] => some []
  | a :: as =>
    match f a with
    | none => none
    | some b =>
      match mapOpt f as with
      | none => none
      | some bs => some (b :: bs)

/-- Run an `Except`-valued function over a list, propagating the first
error (a Python loop whose body may raise). -/
def mapExc (f : α → Except ε β) : List α → Except ε (List β)
  | [] => .ok []
  | a :: as =>
    match f a with
    | .error e => .error e
    | .ok b =>
      match mapExc f as with
      | .error e => .error e
      | .ok bs => .ok (b :: bs)

/-- Fancy indexing `[xs[i] for i in idx]` / `arr[idx]`: gather the listed
positions, `none` (= `IndexError`) when any position is out of range. -/
def gather (xs : List α) (idx : List Nat) : Option (List α) :=
  mapOpt (fun i => xs.get? i) idx

/-- The maximum sequence length in a batch (`0` for an empty batch):
the `T` in `pad_sequence`'s output shape `(B, T, *)`. -/
def maxLenOf (ms : List Mat) : Nat :=
  (ms.map List.length).foldr max 0

/-- Models `torch.nn.utils.rnn.pad_sequence(ms, batch_first=True, padding_value=0)`:
right-pad every matrix with all-zero rows up to the longest length in the
batch.  Torch raises (`none` here) on an empty batch or when the trailing
dimensions disagree; the trailing dimension is read off the first row of
the first sequence. -/
def padSequence (ms : List Mat) : Option Tensor3 :=
  match ms with
  | [] => none
  | m0 :: _ =>
    let d := (m0.headD []).length
    if ms.all (fun m => m.all (fun r => r.length = d)) then
      let L := maxLenOf ms
      some (ms.map fun m => m ++ List.replicate (L - m.length) (List.replicate d 0))
    else none

/-- One channel's contribution to a batch:
`pad_sequence([seq[i] for i in cur_index], batch_first=True, padding_value=0)`. -/
def padChannel (ch : List Mat) (idx : List Nat) : Except LoaderError Tensor3 :=
  match gather ch idx with
  | none => .error .indexError
  | some ms =>
    match padSequence ms with
    | none => .error .runtimeError
    | some t => .ok t

/-- The per-channel list comprehension in `__next__`:
`[pad_sequence([seq[i] for i in cur_index], ...) for seq in self.inp_seq]`. -/
def gatherPad (chs : List (List Mat)) (idx : List Nat) : Except LoaderError (List Tensor3) :=
  mapExc (fun ch => padChannel ch idx) chs

/-- Embed one raw sequence
(`np.stack([w2v_model.wv[item] for item in seq[:max_seq_len]], axis=0)`):
truncate to `max_seq_len`, look every token up (`KeyError` when absent),
then stack (`ValueError` when the truncated sequence is empty; the shape
uniformity `np.stack` also requires is guaranteed by `W2VModel.wv_dim`). -/
def embedSeq (model : W2VModel) (maxLen : Nat) (seq : List Nat) : Except LoaderError Mat :=
  match mapOpt model.wv (seq.take maxLen) with
  | none => .error .lookupError
  | some rows => if rows = [] then .error .valueError else .ok rows

/-- One iteration of `_load_seq_inp`'s loop for the channel `tp`:
load the w2v model named by the registry, unpickle the raw sequence list,
and embed every sample. -/
def loadChannel (arts : Artifacts) (reg : List (String × String)) (maxLen : Nat)
    (tp : String × String) : Except LoaderError (List Mat) :=
  match lookupStr reg tp.1 with
  | none => .error .lookupError
  | some w2vPath =>
    match arts.w2v w2vPath with
    | none => .error .formatError
    | some model =>
      match arts.seqs tp.2 with
      | none => .error .formatError
      | some seqList => mapExc (embedSeq model maxLen) seqList

/-- Computes `div, mod = divmod(len, batch_size); n_batch = div + min(mod, 1)`. -/
def nBatches (n B : Nat) : Nat := n / B + min (n % B) 1

/-- The slice `yield_idx[k*batch_size : (k+1)*batch_size]`. -/
def sliceIdx (idx : List Nat) (B k : Nat) : List Nat :=
  (idx.drop (k * B)).take B

/-- The state of a `train_data_loader` instance, field for field (the
`logger` sink is omitted: it only emits status strings).  Python sets
`cur_batch` in `__iter__`; here the constructed state carries the fresh
cursor `0`, which `iter` (re)sets. -/
structure train_data_loader where
  label_artifact_path : String
  seq_inp_target : List String
  seq_inp_path : List String
  w2v_registry : List (String × String)
  max_seq_len : Nat
  batch_size : Nat
  shuffle : Bool
  label : List Int
  inp_seq : List (List Mat)
  inp_last_idx : List Int
  len : Nat
  n_batch : Nat
  yield_idx : List Nat
  cur_batch : Nat
deriving DecidableEq, Repr

/-- Mirrors `train_data_loader.__init__`.  In source order: the three asserts
(suffix of the label path, `isinstance(seq_inp_target, list)` — the
second `isinstance` is only the assert's message, and both are moot in a
typed embedding — registry keys and `.pkl` suffixes), `_load_label`,
`_load_seq_inp` over `zip(seq_inp_target, seq_inp_path)`,
`inp_last_idx` from channel 0 (`IndexError` when there is no channel),
the label/channel-0 shape assert, `divmod` (`ZeroDivisionError` on
`batch_size = 0`), `n_batch`, and `yield_idx` (`np.arange`, shuffled via
`perm` when `shuffle`). -/
def train_data_loader.init (arts : Artifacts) (label_artifact_path : String)
    (seq_inp_target seq_inp_path : List String) (w2v_registry : List (String × String))
    (max_seq_len batch_size : Nat) (shuffle : Bool) (perm : List Nat → List Nat) :
    Except LoaderError train_data_loader :=
  if pySuffix label_artifact_path ≠ "npy" then .error .configError
  else if ¬ (seq_inp_target.all fun k => (lookupStr w2v_registry k).isSome) then .error .configError
  else if ¬ (seq_inp_path.all fun v => pySuffix v = "pkl") then .error .configError
  else
    match arts.labels label_artifact_path with
    | none => .error .formatError
    | some label =>
      match mapExc (loadChannel arts w2v_registry max_seq_len)
          (seq_inp_target.zip seq_inp_path) with
      | .error e => .error e
      | .ok inp_seq =>
        match inp_seq.head? with
        | none => .error .indexError
        | some ch0 =>
          let inp_last_idx : List Int := ch0.map fun m => (m.length : Int) - 1
          if label.length ≠ inp_last_idx.length then .error .shapeMismatchError
          else if batch_size = 0 then .error .zeroDivisionError
          else
            .ok { label_artifact_path, seq_inp_target, seq_inp_path, w2v_registry,
                  max_seq_len, batch_size, shuffle, label, inp_seq, inp_last_idx,
                  len := label.length,
                  n_batch := nBatches label.length batch_size,
                  yield_idx := if shuffle then perm (List.range label.length)
                               else List.range label.length,
                  cur_batch := 0 }

/-- Mirrors `train_data_loader.__iter__`: reset the batch cursor, return self. -/
def train_data_loader.iter (l : train_data_loader) : train_data_loader :=
  { l with cur_batch := 0 }

/-- The tuple `(y, x_seq, x_seq_last_idx)` yielded by `__next__`. -/
abbrev TrainBatch := List Int × List Tensor3 × List Int

/-- Mirrors `train_data_loader.__next__`: `StopIteration` (here `.ok none`) once
`cur_batch >= n_batch`; otherwise slice the current index window, fancy-
index the labels, pad each channel's gathered sequences, slice the
last-index array, bump the cursor, and yield. -/
def train_data_loader.next (l : train_data_loader) :
    Except LoaderError (Option (TrainBatch × train_data_loader)) :=
  if l.n_batch ≤ l.cur_batch then .ok none
  else
    let cur_index := sliceIdx l.yield_idx l.batch_size l.cur_batch
    match gather l.label cur_index with
    | none => .error .indexError
    | some y =>
      match gatherPad l.inp_seq cur_index with
      | .error e => .error e
      | .ok x_seq =>
        match gather l.inp_last_idx cur_index with
        | none => .error .indexError
        | some x_seq_last_idx =>
          .ok (some ((y, x_seq, x_seq_last_idx),
                     { l with cur_batch := l.cur_batch + 1 }))

/-- Drive a `train_data_loader` until `StopIteration`, an error, or fuel
runs out: the batches collected, how the pass ended (`none` = clean
exhaustion), and the final state.  With `fuel = n_batch` and a fresh
cursor the fuel never runs out first. -/
def passT : Nat → train_data_loader → List TrainBatch × Option LoaderError × train_data_loader
  | 0, l => ([], none, l)
  | fuel + 1, l =>
    match l.next with
    | .ok none => ([], none, l)
    | .error e => ([], some e, l)
    | .ok (some (b, l')) =>
      let r := passT fuel l'
      (b :: r.1, r.2.1, r.2.2)

/-- One full pass of the sample loop: `iter(train_loader)` then `next`
until it stops. -/
def fullPassT (l : train_data_loader) : List TrainBatch × Option LoaderError × train_data_loader :=
  passT l.n_batch l.iter

/-- The state of a `test_data_loader` instance (no labels, no shuffle). -/
structure test_data_loader where
  seq_inp_target : List String
  seq_inp_path : List String
  w2v_registry : List (String × String)
  max_seq_len : Nat
  batch_size : Nat
  inp_seq : List (List Mat)
  inp_last_idx : List Int
  len : Nat
  n_batch : Nat
  yield_idx : List Nat
  cur_batch : Nat
deriving DecidableEq, Repr

/-- Mirrors `test_data_loader.__init__`: the same asserts minus the label path,
channel loading, `inp_last_idx` from channel 0, `len` from
`inp_last_idx.shape[0]` (there is no shape assert in this class),
`divmod`, and an identity `yield_idx` (`np.arange`, never shuffled). -/
def test_data_loader.init (arts : Artifacts)
    (seq_inp_target seq_inp_path : List String) (w2v_registry : List (String × String))
    (max_seq_len batch_size : Nat) :
    Except LoaderError test_data_loader :=
  if ¬ (seq_inp_target.all fun k => (lookupStr w2v_registry k).isSome) then .error .configError
  else if ¬ (seq_inp_path.all fun v => pySuffix v = "pkl") then .error .configError
  else
    match mapExc (loadChannel arts w2v_registry max_seq_len)
        (seq_inp_target.zip seq_inp_path) with
    | .error e => .error e
    | .ok inp_seq =>
      match inp_seq.head? with
      | none => .error .indexError
      | some ch0 =>
        let inp_last_idx : List Int := ch0.map fun m => (m.length : Int) - 1
        if batch_size = 0 then .error .zeroDivisionError
        else
          .ok { seq_inp_target, seq_inp_path, w2v_registry,
                max_seq_len, batch_size, inp_seq, inp_last_idx,
                len := inp_last_idx.length,
                n_batch := nBatches inp_last_idx.length batch_size,
                yield_idx := List.range inp_last_idx.length,
                cur_batch := 0 }

/-- Mirrors `test_data_loader.__iter__`. -/
def test_data_loader.iter (l : test_data_loader) : test_data_loader :=
  { l with cur_batch := 0 }

/-- The tuple `(x_seq, x_seq_last_idx)` yielded by `test_data_loader.__next__`. -/
abbrev TestBatch := List Tensor3 × List Int

/-- Mirrors `test_data_loader.__next__`: identical to the training variant minus
the label gather. -/
def test_data_loader.next (l : test_data_loader) :
    Except LoaderError (Option (TestBatch × test_data_loader)) :=
  if l.n_batch ≤ l.cur_batch then .ok none
  else
    let cur_index := sliceIdx l.yield_idx l.batch_size l.cur_batch
    match gatherPad l.inp_seq cur_index with
    | .error e => .error e
    | .ok x_seq =>
      match gather l.inp_last_idx cur_index with
      | none => .error .indexError
      | some x_seq_last_idx =>
        .ok (some ((x_seq, x_seq_last_idx),
                   { l with cur_batch := l.cur_batch + 1 }))

/-- Drive a `test_data_loader` (see `passT`). -/
def passE : Nat → test_data_loader → List TestBatch × Option LoaderError × test_data_loader
  | 0, l => ([], none, l)
  | fuel + 1, l =>
    match l.next with
    | .ok none => ([], none, l)
    | .error e => ([], some e, l)
    | .ok (some (b, l')) =>
      let r := passE fuel l'
      (b :: r.1, r.2.1, r.2.2)

/-- One full pass of the test loop. -/
def fullPassE (l : test_data_loader) : List TestBatch × Option LoaderError × test_data_loader :=
  passE l.n_batch l.iter

/-! ### Concrete artifact environments used to evaluate the theorems -/

/-- A word2vec model of `vector_size` 1 defined on every token. -/
def exModel1 : W2VModel where
  dim := 1
  wv := fun t => some [(t : Int)]
  wv_dim := fun t v h => by
    simp only [Option.some.injEq] at h
    subst h
    rfl

/-- A word2vec model of `vector_size` 2 defined on every token. -/
def exModel2 : W2VModel where
  dim := 2
  wv := fun t => some [(t : Int), 0]
  wv_dim := fun t v h => by
    simp only [Option.some.injEq] at h
    subst h
    rfl

/-- A small fixed file system: a 5-label training set over two channels,
a 1-label set, a channel file with a single raw sequence of length 150,
a channel file with zero samples, and one whose only raw sequence is
empty. -/
def exArts : Artifacts where
  labels := fun p =>
    if p = "y.npy" then some [10, 20, 30, 40, 50]
    else if p = "one.npy" then some [3]
    else if p = "two.npy" then some [1, 2]
    else none
  seqs := fun p =>
    if p = "a.pkl" then some [[1, 2, 3], [4], [5, 6], [7], [8, 9]]
    else if p = "b.pkl" then some [[1], [2, 3], [3], [4, 5], [5]]
    else if p = "c.pkl" then some [List.replicate 150 7]
    else if p = "a1.pkl" then some [[1]]
    else if p = "bad.pkl" then some []
    else if p = "empty.pkl" then some [[]]
    else none
  w2v := fun p =>
    if p = "wa" then some exModel1
    else if p = "wb" then some exModel2
    else none

/-- The registry `{"prod": "wa", "crea": "wb"}`. -/
def exReg : List (String × String) := [("prod", "wa"), ("crea", "wb")]

/-- A throwaway loader value for `Option.getD`. -/
def junkTrain : train_data_loader :=
  ⟨"", [], [], [], 0, 0, false, [], [], [], 0, 0, [], 0⟩

/-- A throwaway test-loader value for `Option.getD`. -/
def junkTest : test_data_loader :=
  ⟨[], [], [], 0, 0, [], [], 0, 0, [], 0⟩

/-- The loader over 5 samples and two channels, `batch_size = 2`, no
shuffle. -/
def ltrain5 : train_data_loader :=
  (train_data_loader.init exArts "y.npy" ["prod", "crea"] ["a.pkl", "b.pkl"] exReg
    100 2 false id).toOption.getD junkTrain

/-- The same construction shuffled with the reversing permutation. -/
def ltrain5s : train_data_loader :=
  (train_data_loader.init exArts "y.npy" ["prod", "crea"] ["a.pkl", "b.pkl"] exReg
    100 2 true List.reverse).toOption.getD junkTrain

/-- The test loader over the same two channels. -/
def ltest5 : test_data_loader :=
  (test_data_loader.init exArts ["prod", "crea"] ["a.pkl", "b.pkl"] exReg
    100 2).toOption.getD junkTest

/-- A successfully constructed loader whose second channel holds zero
samples while the label/channel-0 count is 1. -/
def lbad : train_data_loader :=
  (train_data_loader.init exArts "one.npy" ["prod", "crea"] ["a1.pkl", "bad.pkl"] exReg
    100 1 false id).toOption.getD junkTrain

/-- A loader whose single sample has raw length 150, truncated at
`max_seq_len = 100`. -/
def loader150 : train_data_loader :=
  (train_data_loader.init exArts "one.npy" ["prod"] ["c.pkl"] exReg
    100 512 false id).toOption.getD junkTrain

/-! ### Combinator lemmas -/

theorem mapOpt_length {f : α → Option β} : ∀ {l : List α} {bs : List β},
    mapOpt f l = some bs → bs.length = l.length := by
  intro l
  induction l with
  | nil => intro bs h; simp [mapOpt] at h; simp [← h]
  | cons a as ih =>
    intro bs h
    simp only [mapOpt] at h
    cases hfa : f a with
    | none => rw [hfa] at h; simp at h
    | some b =>
      rw [hfa] at h
      cases hrec : mapOpt f as with
      | none => rw [hrec] at h; simp at h
      | some cs =>
        rw [hrec] at h
        simp only [Option.some.injEq] at h
        subst h
        simp [ih hrec]

theorem mapOpt_get? {f : α → Option β} : ∀ {l : List α} {bs : List β},
    mapOpt f l = some bs → ∀ j a, l.get? j = some a → bs.get? j = f a := by
  intro l
  induction l with
  | nil => intro bs _ j a hj; simp at hj
  | cons x xs ih =>
    intro bs h j a hj
    simp only [mapOpt] at h
    cases hfa : f x with
    | none => rw [hfa] at h; simp at h
    | some b =>
      rw [hfa] at h
      cases hrec : mapOpt f xs with
      | none => rw [hrec] at h; simp at h
      | some cs =>
        rw [hrec] at h
        simp only [Option.some.injEq] at h
        subst h
        cases j with
        | zero =>
          simp only [List.get?] at hj ⊢
          cases hj
          rw [hfa]
        | succ j' =>
          simp only [List.get?] at hj ⊢
          exact ih hrec j' a hj

theorem mapOpt_mem {f : α → Option β} : ∀ {l : List α} {bs : List β},
    mapOpt f l = some bs → ∀ b ∈ bs, ∃ a ∈ l, f a = some b := by
  intro l
  induction l with
  | nil => intro bs h b hb; simp [mapOpt] at h; subst h; simp at hb
  | cons x xs ih =>
    intro bs h b hb
    simp only [mapOpt] at h
    cases hfa : f x with
    | none => rw [hfa] at h; simp at h
    | some c =>
      rw [hfa] at h
      cases hrec : mapOpt f xs with
      | none => rw [hrec] at h; simp at h
      | some cs =>
        rw [hrec] at h
        simp only [Option.some.injEq] at h
        subst h
        rcases List.mem_cons.mp hb with rfl | hb
        · exact ⟨x, List.mem_cons_self x xs, hfa⟩
        · rcases ih hrec b hb with ⟨a, ha, hfa'⟩
          exact ⟨a, List.mem_cons_of_mem x ha, hfa'⟩

theorem mapOpt_isSome {f : α → Option β} : ∀ {l : List α},
    (∀ a ∈ l, (f a).isSome) → ∃ bs, mapOpt f l = some bs := by
  intro l
  induction l with
  | nil => intro _; exact ⟨[], rfl⟩
  | cons x xs ih =>
    intro h
    have hx := h x (List.mem_cons_self x xs)
    cases hfa : f x with
    | none => rw [hfa] at hx; simp at hx
    | some b =>
      rcases ih (fun a ha => h a (List.mem_cons_of_mem x ha)) with ⟨bs, hbs⟩
      exact ⟨b :: bs, by simp only [mapOpt, hfa, hbs]⟩

theorem mapExc_length {f : α → Except ε β} : ∀ {l : List α} {bs : List β},
    mapExc f l = .ok bs → bs.length = l.length := by
  intro l
  induction l with
  | nil => intro bs h; simp only [mapExc, Except.ok.injEq] at h; simp [← h]
  | cons a as ih =>
    intro bs h
    simp only [mapExc] at h
    cases hfa : f a with
    | error e => rw [hfa] at h; simp at h
    | ok b =>
      rw [hfa] at h
      cases hrec : mapExc f as with
      | error e => rw [hrec] at h; simp at h
      | ok cs =>
        rw [hrec] at h
        simp only [Except.ok.injEq] at h
        subst h
        simp [ih hrec]

theorem mapExc_get? {f : α → Except ε β} : ∀ {l : List α} {bs : List β},
    mapExc f l = .ok bs → ∀ j a, l.get? j = some a →
      ∃ b, bs.get? j = some b ∧ f a = .ok b := by
  intro l
  induction l with
  | nil => intro bs _ j a hj; simp at hj
  | cons x xs ih =>
    intro bs h j a hj
    simp only [mapExc] at h
    cases hfa : f x with
    | error e => rw [hfa] at h; simp at h
    | ok b =>
      rw [hfa] at h
      cases hrec : mapExc f xs with
      | error e => rw [hrec] at h; simp at h
      | ok cs =>
        rw [hrec] at h
        simp only [Except.ok.injEq] at h
        subst h
        cases j with
        | zero =>
          simp only [List.get?] at hj ⊢
          cases hj
          exact ⟨b, rfl, hfa⟩
        | succ j' =>
          simp only [List.get?] at hj ⊢
          exact ih hrec j' a hj

theorem mapExc_forall {f : α → Except ε β} : ∀ {l : List α} {bs : List β},
    mapExc f l = .ok bs → ∀ a ∈ l, ∃ b, f a = .ok b := by
  intro l
  induction l with
  | nil => intro bs _ a ha; simp at ha
  | cons x xs ih =>
    intro bs h a ha
    simp only [mapExc] at h
    cases hfa : f x with
    | error e => rw [hfa] at h; simp at h
    | ok b =>
      rw [hfa] at h
      cases hrec : mapExc f xs with
      | error e => rw [hrec] at h; simp at h
      | ok cs =>
        rcases List.mem_cons.mp ha with rfl | ha
        · exact ⟨b, hfa⟩
        · exact ih hrec a ha

theorem mapExc_mem {f : α → Except ε β} : ∀ {l : List α} {bs : List β},
    mapExc f l = .ok bs → ∀ b ∈ bs, ∃ a ∈ l, f a = .ok b := by
  intro l
  induction l with
  | nil =>
    intro bs h b hb
    simp only [mapExc, Except.ok.injEq] at h
    subst h
    simp at hb
  | cons x xs ih =>
    intro bs h b hb
    simp only [mapExc] at h
    cases hfa : f x with
    | error e => rw [hfa] at h; simp at h
    | ok c =>
      rw [hfa] at h
      cases hrec : mapExc f xs with
      | error e => rw [hrec] at h; simp at h
      | ok cs =>
        rw [hrec] at h
        simp only [Except.ok.injEq] at h
        subst h
        rcases List.mem_cons.mp hb with rfl | hb
        · exact ⟨x, List.mem_cons_self x xs, hfa⟩
        · rcases ih hrec b hb with ⟨a, ha, hfa'⟩
          exact ⟨a, List.mem_cons_of_mem x ha, hfa'⟩

theorem mapExc_isOk {f : α → Except ε β} : ∀ {l : List α},
    (∀ a ∈ l, ∃ b, f a = .ok b) → ∃ bs, mapExc f l = .ok bs := by
  intro l
  induction l with
  | nil => intro _; exact ⟨[], rfl⟩
  | cons x xs ih =>
    intro h
    rcases h x (List.mem_cons_self x xs) with ⟨b, hb⟩
    rcases ih (fun a ha => h a (List.mem_cons_of_mem x ha)) with ⟨bs, hbs⟩
    exact ⟨b :: bs, by simp only [mapExc, hb, hbs]⟩

theorem gather_length {xs : List α} {idx : List Nat} {ys : List α}
    (h : gather xs idx = some ys) : ys.length = idx.length :=
  mapOpt_length h

theorem gather_get? {xs : List α} {idx : List Nat} {ys : List α}
    (h : gather xs idx = some ys) {j i : Nat} (hj : idx.get? j = some i) :
    ys.get? j = xs.get? i :=
  mapOpt_get? h j i hj

theorem gather_mem {xs : List α} {idx : List Nat} {ys : List α}
    (h : gather xs idx = some ys) {y : α} (hy : y ∈ ys) : y ∈ xs := by
  rcases mapOpt_mem h y hy with ⟨i, _, hget⟩
  exact List.get?_mem hget

theorem gather_isSome {xs : List α} {idx : List Nat}
    (h : ∀ i ∈ idx, i < xs.length) : ∃ ys, gather xs idx = some ys :=
  mapOpt_isSome fun i hi => by
    rw [List.get?_eq_get (h i hi)]
    rfl

/-! ### Max-of-lengths lemmas -/

theorem le_foldr_max {l : List Nat} {x : Nat} (hx : x ∈ l) :
    x ≤ l.foldr max 0 := by
  induction l with
  | nil => simp at hx
  | cons a as ih =>
    rcases List.mem_cons.mp hx with rfl | hx
    · exact le_max_left _ _
    · exact le_trans (ih hx) (le_max_right _ _)

theorem foldr_max_le {l : List Nat} {b : Nat} (h : ∀ x ∈ l, x ≤ b) :
    l.foldr max 0 ≤ b := by
  induction l with
  | nil => simp
  | cons a as ih =>
    simp only [List.foldr]
    exact max_le (h a (List.mem_cons_self a as))
      (ih fun x hx => h x (List.mem_cons_of_mem a hx))

theorem foldr_max_mem {l : List Nat} (h : l ≠ []) :
    l.foldr max 0 ∈ l := by
  induction l with
  | nil => exact absurd rfl h
  | cons a as ih =>
    cases as with
    | nil => simp
    | cons b bs =>
      rcases max_choice a ((b :: bs).foldr max 0) with hm | hm
      · show a ⊔ ((b :: bs).foldr max 0) ∈ a :: b :: bs
        rw [hm]; exact List.mem_cons_self _ _
      · show a ⊔ ((b :: bs).foldr max 0) ∈ a :: b :: bs
        rw [hm]; exact List.mem_cons_of_mem a (ih (by simp))

theorem le_maxLenOf {ms : List Mat} {m : Mat} (hm : m ∈ ms) :
    m.length ≤ maxLenOf ms :=
  le_foldr_max (List.mem_map_of_mem List.length hm)

theorem maxLenOf_le {ms : List Mat} {b : Nat} (h : ∀ m ∈ ms, m.length ≤ b) :
    maxLenOf ms ≤ b :=
  foldr_max_le fun x hx => by
    rcases List.mem_map.mp hx with ⟨m, hm, rfl⟩
    exact h m hm

theorem maxLenOf_attained {ms : List Mat} (h : ms ≠ []) :
    ∃ m ∈ ms, m.length = maxLenOf ms := by
  have hmem : maxLenOf ms ∈ ms.map List.length :=
    foldr_max_mem (by simpa using h)
  rcases List.mem_map.mp hmem with ⟨m, hm, hlen⟩
  exact ⟨m, hm, hlen⟩

/-! ### `padSequence` characterization -/

theorem padSequence_eq {ms : List Mat} {d : Nat} (hne : ms ≠ [])
    (hrow : ∀ m ∈ ms, ∀ r ∈ m, r.length = d) (hme : ∀ m ∈ ms, m ≠ []) :
    padSequence ms =
      some (ms.map fun m =>
        m ++ List.replicate (maxLenOf ms - m.length) (List.replicate d 0)) := by
  cases ms with
  | nil => exact absurd rfl hne
  | cons m0 rest =>
    have hm0 : m0 ≠ [] := hme m0 (List.mem_cons_self _ _)
    have hd0 : (m0.headD []).length = d := by
      cases m0 with
      | nil => exact absurd rfl hm0
      | cons r0 rs =>
        exact hrow (r0 :: rs) (List.mem_cons_self _ _) r0 (List.mem_cons_self _ _)
    have hall : ((m0 :: rest).all fun m => m.all fun r => decide (r.length = d)) = true := by
      rw [List.all_eq_true]
      intro m hm
      rw [List.all_eq_true]
      intro r hr
      exact decide_eq_true (hrow m hm r hr)
    simp only [padSequence, hd0, hall, if_true]

/-! ### Batch-count arithmetic -/

theorem nBatches_pos {n B : Nat} (hn : 0 < n) (hB : 0 < B) :
    0 < nBatches n B := by
  unfold nBatches
  rcases Nat.eq_zero_or_pos (n % B) with hr | hr
  · have hpos : 0 < n / B :=
      Nat.div_pos (Nat.le_of_dvd hn (Nat.dvd_of_mod_eq_zero hr)) hB
    rw [hr]
    simpa using hpos
  · have h1 : min (n % B) 1 = 1 := min_eq_right hr
    rw [h1]
    exact Nat.succ_pos _

theorem nBatches_eq_zero {n B : Nat} (hB : 0 < B) (h : nBatches n B = 0) :
    n = 0 := by
  by_contra hn
  exact absurd h (Nat.ne_of_gt (nBatches_pos (Nat.pos_of_ne_zero hn) hB))

theorem nBatches_sub {n B : Nat} (hB : 0 < B) (hle : B ≤ n) :
    nBatches (n - B) B = nBatches n B - 1 := by
  obtain ⟨M, rfl⟩ : ∃ M, n = M + B := ⟨n - B, by omega⟩
  have h1 : (M + B) / B = M / B + 1 := Nat.add_div_right M hB
  have h2 : (M + B) % B = M % B := Nat.add_mod_right M B
  unfold nBatches
  rw [Nat.add_sub_cancel, h1, h2]
  generalize M / B = q
  generalize min (M % B) 1 = x
  omega

theorem mul_lt_of_lt_nBatches {n B k : Nat} (hB : 0 < B) (hk : k < nBatches n B) :
    k * B < n := by
  have hdm : B * (n / B) + n % B = n := Nat.div_add_mod n B
  rw [Nat.mul_comm B (n / B)] at hdm
  unfold nBatches at hk
  rcases Nat.eq_zero_or_pos (n % B) with hr | hr
  · rw [hr] at hk
    simp only [Nat.zero_min, Nat.add_zero] at hk
    have h1 : k * B < (n / B) * B := (Nat.mul_lt_mul_right hB).mpr hk
    omega
  · have hmin : min (n % B) 1 = 1 := min_eq_right hr
    rw [hmin] at hk
    have hkle : k ≤ n / B := by omega
    have h1 : k * B ≤ (n / B) * B := Nat.mul_le_mul_right B hkle
    omega

theorem nBatches_ceil {n B : Nat} (hB : 0 < B) :
    nBatches n B = (n + B - 1) / B ∧
    nBatches n B = n / B + (if n % B = 0 then 0 else 1) := by
  obtain ⟨q, r, hrB, hn⟩ : ∃ q r, r < B ∧ n = B * q + r :=
    ⟨n / B, n % B, Nat.mod_lt n hB, (Nat.div_add_mod n B).symm⟩
  have hdiv : n / B = q := by
    rw [hn, Nat.mul_add_div hB, Nat.div_eq_of_lt hrB, Nat.add_zero]
  have hmod : n % B = r := by
    rw [hn, Nat.mul_add_mod]
    exact Nat.mod_eq_of_lt hrB
  constructor
  · unfold nBatches
    rw [hdiv, hmod]
    rcases Nat.eq_zero_or_pos r with rfl | hrpos
    · have h1 : n + B - 1 = B * q + (B - 1) := by
        rw [hn]
        generalize B * q = t
        omega
      rw [h1, Nat.mul_add_div hB, Nat.div_eq_of_lt (show B - 1 < B by omega)]
      simp
    · have h1 : n + B - 1 = B * (q + 1) + (r - 1) := by
        rw [hn]
        have hd : B * (q + 1) = B * q + B := by ring
        rw [hd]
        generalize B * q = t
        omega
      rw [h1, Nat.mul_add_div hB, Nat.div_eq_of_lt (show r - 1 < B by omega)]
      rw [min_eq_right hrpos]
  · unfold nBatches
    rw [hdiv, hmod]
    rcases Nat.eq_zero_or_pos r with rfl | hrpos
    · simp
    · rw [min_eq_right hrpos, if_neg (by omega)]

/-! ### Window lemmas -/

theorem sliceIdx_mem {idx : List Nat} {B k a : Nat}
    (h : a ∈ sliceIdx idx B k) : a ∈ idx :=
  ((List.take_sublist _ _).trans (List.drop_sublist _ _)).mem h

theorem sliceIdx_length {idx : List Nat} {B k : Nat} :
    (sliceIdx idx B k).length = min B (idx.length - k * B) := by
  unfold sliceIdx
  rw [List.length_take, List.length_drop]

theorem sliceIdx_ne_nil {idx : List Nat} {B k : Nat} (hB : 0 < B)
    (hk : k < nBatches idx.length B) : sliceIdx idx B k ≠ [] := by
  have hlt := mul_lt_of_lt_nBatches hB hk
  have hlen : (sliceIdx idx B k).length ≠ 0 := by
    rw [sliceIdx_length]
    omega
  intro hnil
  rw [hnil] at hlen
  exact hlen rfl

theorem flatten_sliceIdx {B : Nat} (hB : 0 < B) :
    ∀ nb (idx : List Nat), nBatches idx.length B = nb →
      ((List.range nb).map (sliceIdx idx B)).flatten = idx := by
  intro nb
  induction nb with
  | zero =>
    intro idx h
    have h0 : idx.length = 0 := nBatches_eq_zero hB h
    rw [List.length_eq_zero] at h0
    subst h0
    simp
  | succ k ih =>
    intro idx h
    rw [List.range_succ_eq_map]
    simp only [List.map_cons, List.map_map, List.flatten_cons]
    have hshift : ∀ j : Nat, sliceIdx idx B (Nat.succ j) = sliceIdx (idx.drop B) B j := by
      intro j
      unfold sliceIdx
      rw [List.drop_drop, Nat.succ_mul]
      congr 2
      ring
    have hmap : (List.range k).map (sliceIdx idx B ∘ Nat.succ) =
        (List.range k).map (sliceIdx (idx.drop B) B) := by
      apply List.map_congr_left
      intro j _
      exact hshift j
    rw [hmap]
    have h0 : sliceIdx idx B 0 = idx.take B := by
      unfold sliceIdx
      rw [Nat.zero_mul, List.drop_zero]
    rcases le_or_lt idx.length B with hle | hlt
    · have hk0 : k = 0 := by
        unfold nBatches at h
        rcases Nat.lt_or_ge idx.length B with hstrict | hge
        · rw [Nat.div_eq_of_lt hstrict, Nat.mod_eq_of_lt hstrict] at h
          have hx : min idx.length 1 ≤ 1 := Nat.min_le_right _ _
          generalize hmin : min idx.length 1 = x at h hx
          omega
        · have hBeq : idx.length = B := by omega
          rw [hBeq, Nat.div_self hB, Nat.mod_self] at h
          simp only [Nat.zero_min, Nat.add_zero] at h
          omega
      subst hk0
      simp only [List.range_zero, List.map_nil, List.flatten_nil, List.append_nil]
      rw [h0]
      exact List.take_of_length_le hle
    · have hrec : nBatches (idx.drop B).length B = k := by
        rw [List.length_drop]
        rw [nBatches_sub hB (le_of_lt hlt), h]
        rfl
      rw [ih (idx.drop B) hrec, h0]
      exact List.take_append_drop B idx

/-! ### Channel-loading lemmas -/

/-- Invariant of one loaded channel: every per-sample matrix is nonempty
(`np.stack` would have raised), no longer than `max_seq_len` (truncation),
and rectangular with the channel's embedding dimension. -/
def ChannelOK (maxLen : Nat) (ch : List Mat) : Prop :=
  ∃ d, ∀ m ∈ ch, m ≠ [] ∧ m.length ≤ maxLen ∧ ∀ r ∈ m, r.length = d

theorem embedSeq_ok {model : W2VModel} {maxLen : Nat} {s : List Nat} {m : Mat}
    (h : embedSeq model maxLen s = .ok m) :
    m ≠ [] ∧ m.length = min maxLen s.length ∧ ∀ r ∈ m, r.length = model.dim := by
  unfold embedSeq at h
  cases hmap : mapOpt model.wv (s.take maxLen) with
  | none => rw [hmap] at h; simp at h
  | some rows =>
    rw [hmap] at h
    dsimp only [] at h
    by_cases hrows : rows = []
    · rw [if_pos hrows] at h; simp at h
    · rw [if_neg hrows] at h
      simp only [Except.ok.injEq] at h
      subst h
      refine ⟨hrows, ?_, ?_⟩
      · rw [mapOpt_length hmap, List.length_take]
      · intro r hr
        rcases mapOpt_mem hmap r hr with ⟨t, _, hwv⟩
        exact model.wv_dim t r hwv

theorem embedSeq_nil {model : W2VModel} {maxLen : Nat} :
    embedSeq model maxLen [] = .error .valueError := by
  unfold embedSeq
  simp [mapOpt]

theorem loadChannel_ok {arts : Artifacts} {reg : List (String × String)}
    {maxLen : Nat} {tp : String × String} {ch : List Mat}
    (h : loadChannel arts reg maxLen tp = .ok ch) :
    ∃ pth model raws, lookupStr reg tp.1 = some pth ∧ arts.w2v pth = some model ∧
      arts.seqs tp.2 = some raws ∧ mapExc (embedSeq model maxLen) raws = .ok ch := by
  unfold loadChannel at h
  cases h1 : lookupStr reg tp.1 with
  | none => rw [h1] at h; simp at h
  | some pth =>
    rw [h1] at h
    dsimp only [] at h
    cases h2 : arts.w2v pth with
    | none => rw [h2] at h; simp at h
    | some model =>
      rw [h2] at h
      dsimp only [] at h
      cases h3 : arts.seqs tp.2 with
      | none => rw [h3] at h; simp at h
      | some raws =>
        rw [h3] at h
        dsimp only [] at h
        exact ⟨pth, model, raws, rfl, h2, rfl, h⟩

theorem loadChannel_ChannelOK {arts : Artifacts} {reg : List (String × String)}
    {maxLen : Nat} {tp : String × String} {ch : List Mat}
    (h : loadChannel arts reg maxLen tp = .ok ch) : ChannelOK maxLen ch := by
  rcases loadChannel_ok h with ⟨pth, model, raws, _, _, _, hmap⟩
  refine ⟨model.dim, fun m hm => ?_⟩
  rcases mapExc_mem hmap m hm with ⟨s, _, hemb⟩
  rcases embedSeq_ok hemb with ⟨hne, hlen, hrow⟩
  exact ⟨hne, by rw [hlen]; exact Nat.min_le_left _ _, hrow⟩

theorem loadChannel_length {arts : Artifacts} {reg : List (String × String)}
    {maxLen : Nat} {tp : String × String} {ch : List Mat} {raws : List (List Nat)}
    (h : loadChannel arts reg maxLen tp = .ok ch)
    (hraws : arts.seqs tp.2 = some raws) : ch.length = raws.length := by
  rcases loadChannel_ok h with ⟨pth, model, raws', _, _, hraws', hmap⟩
  rw [hraws] at hraws'
  cases hraws'
  exact mapExc_length hmap

theorem loadChannel_lengths {arts : Artifacts} {reg : List (String × String)}
    {maxLen : Nat} {tp : String × String} {ch : List Mat} {raws : List (List Nat)}
    (h : loadChannel arts reg maxLen tp = .ok ch)
    (hraws : arts.seqs tp.2 = some raws) :
    ∀ i s, raws.get? i = some s →
      ∃ m, ch.get? i = some m ∧ m.length = min maxLen s.length := by
  rcases loadChannel_ok h with ⟨pth, model, raws', _, _, hraws', hmap⟩
  rw [hraws] at hraws'
  cases hraws'
  intro i s hs
  rcases mapExc_get? hmap i s hs with ⟨m, hm, hemb⟩
  exact ⟨m, hm, (embedSeq_ok hemb).2.1⟩

/-! ### Construction inversion -/

theorem train_init_ok {arts : Artifacts} {lp : String} {ts ps : List String}
    {reg : List (String × String)} {maxLen B : Nat} {sh : Bool}
    {perm : List Nat → List Nat} {l : train_data_loader}
    (h : train_data_loader.init arts lp ts ps reg maxLen B sh perm = .ok l) :
    ∃ label chs ch0,
      arts.labels lp = some label ∧
      mapExc (loadChannel arts reg maxLen) (ts.zip ps) = .ok chs ∧
      chs.head? = some ch0 ∧
      label.length = ch0.length ∧
      B ≠ 0 ∧
      l = { label_artifact_path := lp, seq_inp_target := ts, seq_inp_path := ps,
            w2v_registry := reg, max_seq_len := maxLen, batch_size := B,
            shuffle := sh, label := label, inp_seq := chs,
            inp_last_idx := ch0.map fun m => (m.length : Int) - 1,
            len := label.length,
            n_batch := nBatches label.length B,
            yield_idx := if sh then perm (List.range label.length)
                         else List.range label.length,
            cur_batch := 0 } := by
  unfold train_data_loader.init at h
  by_cases h1 : pySuffix lp ≠ "npy"
  · rw [if_pos h1] at h; simp at h
  rw [if_neg h1] at h
  by_cases h2 : ¬ (ts.all fun k => (lookupStr reg k).isSome)
  · rw [if_pos h2] at h; simp at h
  rw [if_neg h2] at h
  by_cases h3 : ¬ (ps.all fun v => pySuffix v = "pkl")
  · rw [if_pos h3] at h; simp at h
  rw [if_neg h3] at h
  cases h4 : arts.labels lp with
  | none => rw [h4] at h; simp at h
  | some label =>
    rw [h4] at h
    dsimp only [] at h
    cases h5 : mapExc (loadChannel arts reg maxLen) (ts.zip ps) with
    | error e => rw [h5] at h; simp at h
    | ok chs =>
      rw [h5] at h
      dsimp only [] at h
      cases h6 : chs.head? with
      | none => rw [h6] at h; simp at h
      | some ch0 =>
        rw [h6] at h
        dsimp only [] at h
        by_cases h7 : label.length ≠ (ch0.map fun m => (m.length : Int) - 1).length
        · rw [if_pos h7] at h; simp at h
        rw [if_neg h7] at h
        by_cases h8 : B = 0
        · rw [if_pos h8] at h; simp at h
        rw [if_neg h8] at h
        simp only [Except.ok.injEq] at h
        rw [List.length_map] at h7
        exact ⟨label, chs, ch0, rfl, rfl, h6, by omega, h8, h.symm⟩

theorem test_init_ok {arts : Artifacts} {ts ps : List String}
    {reg : List (String × String)} {maxLen B : Nat} {l : test_data_loader}
    (h : test_data_loader.init arts ts ps reg maxLen B = .ok l) :
    ∃ chs ch0,
      mapExc (loadChannel arts reg maxLen) (ts.zip ps) = .ok chs ∧
      chs.head? = some ch0 ∧
      B ≠ 0 ∧
      l = { seq_inp_target := ts, seq_inp_path := ps, w2v_registry := reg,
            max_seq_len := maxLen, batch_size := B, inp_seq := chs,
            inp_last_idx := ch0.map fun m => (m.length : Int) - 1,
            len := ch0.length,
            n_batch := nBatches ch0.length B,
            yield_idx := List.range ch0.length,
            cur_batch := 0 } := by
  unfold test_data_loader.init at h
  by_cases h2 : ¬ (ts.all fun k => (lookupStr reg k).isSome)
  · rw [if_pos h2] at h; simp at h
  rw [if_neg h2] at h
  by_cases h3 : ¬ (ps.all fun v => pySuffix v = "pkl")
  · rw [if_pos h3] at h; simp at h
  rw [if_neg h3] at h
  cases h5 : mapExc (loadChannel arts reg maxLen) (ts.zip ps) with
  | error e => rw [h5] at h; simp at h
  | ok chs =>
    rw [h5] at h
    dsimp only [] at h
    cases h6 : chs.head? with
    | none => rw [h6] at h; simp at h
    | some ch0 =>
      rw [h6] at h
      dsimp only [] at h
      by_cases h8 : B = 0
      · rw [if_pos h8] at h; simp at h
      rw [if_neg h8] at h
      simp only [Except.ok.injEq] at h
      refine ⟨chs, ch0, rfl, h6, h8, ?_⟩
      rw [← h]
      simp [List.length_map]

/-! ### Step lemmas -/

theorem train_next_stop {l : train_data_loader} (h : l.n_batch ≤ l.cur_batch) :
    l.next = .ok none := by
  unfold train_data_loader.next
  rw [if_pos h]

theorem test_next_stop {l : test_data_loader} (h : l.n_batch ≤ l.cur_batch) :
    l.next = .ok none := by
  unfold test_data_loader.next
  rw [if_pos h]

theorem padChannel_ok {ch : List Mat} {win : List Nat} {d : Nat}
    (hwin : ∀ i ∈ win, i < ch.length) (hne : win ≠ [])
    (hok : ∀ m ∈ ch, m ≠ [] ∧ ∀ r ∈ m, r.length = d) :
    ∃ t, padChannel ch win = .ok t := by
  obtain ⟨ms, hms⟩ := gather_isSome hwin
  have hmsne : ms ≠ [] := by
    intro hnil
    have := gather_length hms
    rw [hnil] at this
    exact hne (List.length_eq_zero.mp this.symm)
  have hmem : ∀ m ∈ ms, m ∈ ch := fun m hm => gather_mem hms hm
  have hpad := padSequence_eq (d := d) hmsne
    (fun m hm => (hok m (hmem m hm)).2)
    (fun m hm => (hok m (hmem m hm)).1)
  refine ⟨ms.map fun m =>
    m ++ List.replicate (maxLenOf ms - m.length) (List.replicate d 0), ?_⟩
  unfold padChannel
  rw [hms]
  dsimp only []
  rw [hpad]

theorem train_next_ok {l : train_data_loader}
    (hcur : l.cur_batch < l.n_batch)
    (hlab : ∀ i ∈ sliceIdx l.yield_idx l.batch_size l.cur_batch, i < l.label.length)
    (hlast : ∀ i ∈ sliceIdx l.yield_idx l.batch_size l.cur_batch, i < l.inp_last_idx.length)
    (hch : ∀ ch ∈ l.inp_seq, ∀ i ∈ sliceIdx l.yield_idx l.batch_size l.cur_batch, i < ch.length)
    (hok : ∀ ch ∈ l.inp_seq, ChannelOK l.max_seq_len ch)
    (hne : sliceIdx l.yield_idx l.batch_size l.cur_batch ≠ []) :
    ∃ y xs li, l.next = .ok (some ((y, xs, li), { l with cur_batch := l.cur_batch + 1 })) := by
  obtain ⟨y, hy⟩ := gather_isSome hlab
  obtain ⟨li, hli⟩ := gather_isSome hlast
  have hxs : ∃ xs, gatherPad l.inp_seq (sliceIdx l.yield_idx l.batch_size l.cur_batch) = .ok xs := by
    apply mapExc_isOk
    intro ch hmem
    obtain ⟨d, hd⟩ := hok ch hmem
    exact padChannel_ok (hch ch hmem) hne
      (fun m hm => ⟨(hd m hm).1, (hd m hm).2.2⟩)
  obtain ⟨xs, hxs⟩ := hxs
  refine ⟨y, xs, li, ?_⟩
  unfold train_data_loader.next
  rw [if_neg (by omega)]
  simp only [hy, hxs, hli]

theorem test_next_ok {l : test_data_loader}
    (hcur : l.cur_batch < l.n_batch)
    (hlast : ∀ i ∈ sliceIdx l.yield_idx l.batch_size l.cur_batch, i < l.inp_last_idx.length)
    (hch : ∀ ch ∈ l.inp_seq, ∀ i ∈ sliceIdx l.yield_idx l.batch_size l.cur_batch, i < ch.length)
    (hok : ∀ ch ∈ l.inp_seq, ChannelOK l.max_seq_len ch)
    (hne : sliceIdx l.yield_idx l.batch_size l.cur_batch ≠ []) :
    ∃ xs li, l.next = .ok (some ((xs, li), { l with cur_batch := l.cur_batch + 1 })) := by
  obtain ⟨li, hli⟩ := gather_isSome hlast
  have hxs : ∃ xs, gatherPad l.inp_seq (sliceIdx l.yield_idx l.batch_size l.cur_batch) = .ok xs := by
    apply mapExc_isOk
    intro ch hmem
    obtain ⟨d, hd⟩ := hok ch hmem
    exact padChannel_ok (hch ch hmem) hne
      (fun m hm => ⟨(hd m hm).1, (hd m hm).2.2⟩)
  obtain ⟨xs, hxs⟩ := hxs
  refine ⟨xs, li, ?_⟩
  unfold test_data_loader.next
  rw [if_neg (by omega)]
  simp only [hxs, hli]

theorem train_next_ok_inv {l l' : train_data_loader} {b : TrainBatch}
    (h : l.next = .ok (some (b, l'))) :
    l.cur_batch < l.n_batch ∧
    l' = { l with cur_batch := l.cur_batch + 1 } ∧
    gather l.label (sliceIdx l.yield_idx l.batch_size l.cur_batch) = some b.1 ∧
    gatherPad l.inp_seq (sliceIdx l.yield_idx l.batch_size l.cur_batch) = .ok b.2.1 ∧
    gather l.inp_last_idx (sliceIdx l.yield_idx l.batch_size l.cur_batch) = some b.2.2 := by
  unfold train_data_loader.next at h
  by_cases hif : l.n_batch ≤ l.cur_batch
  · rw [if_pos hif] at h; simp at h
  rw [if_neg hif] at h
  dsimp only [] at h
  cases hy : gather l.label (sliceIdx l.yield_idx l.batch_size l.cur_batch) with
  | none => rw [hy] at h; simp at h
  | some y =>
    rw [hy] at h
    dsimp only [] at h
    cases hxs : gatherPad l.inp_seq (sliceIdx l.yield_idx l.batch_size l.cur_batch) with
    | error e => rw [hxs] at h; simp at h
    | ok xs =>
      rw [hxs] at h
      dsimp only [] at h
      cases hli : gather l.inp_last_idx (sliceIdx l.yield_idx l.batch_size l.cur_batch) with
      | none => rw [hli] at h; simp at h
      | some li =>
        rw [hli] at h
        dsimp only [] at h
        simp only [Except.ok.injEq, Option.some.injEq, Prod.mk.injEq] at h
        obtain ⟨hb, hl'⟩ := h
        subst hb
        exact ⟨by omega, hl'.symm, rfl, rfl, rfl⟩

theorem test_next_ok_inv {l l' : test_data_loader} {b : TestBatch}
    (h : l.next = .ok (some (b, l'))) :
    l.cur_batch < l.n_batch ∧
    l' = { l with cur_batch := l.cur_batch + 1 } ∧
    gatherPad l.inp_seq (sliceIdx l.yield_idx l.batch_size l.cur_batch) = .ok b.1 ∧
    gather l.inp_last_idx (sliceIdx l.yield_idx l.batch_size l.cur_batch) = some b.2 := by
  unfold test_data_loader.next at h
  by_cases hif : l.n_batch ≤ l.cur_batch
  · rw [if_pos hif] at h; simp at h
  rw [if_neg hif] at h
  dsimp only [] at h
  cases hxs : gatherPad l.inp_seq (sliceIdx l.yield_idx l.batch_size l.cur_batch) with
  | error e => rw [hxs] at h; simp at h
  | ok xs =>
    rw [hxs] at h
    dsimp only [] at h
    cases hli : gather l.inp_last_idx (sliceIdx l.yield_idx l.batch_size l.cur_batch) with
    | none => rw [hli] at h; simp at h
    | some li =>
      rw [hli] at h
      dsimp only [] at h
      simp only [Except.ok.injEq, Option.some.injEq, Prod.mk.injEq] at h
      obtain ⟨hb, hl'⟩ := h
      subst hb
      exact ⟨by omega, hl'.symm, rfl, rfl⟩

/-! ### Construction invariants and pass lemmas -/

theorem train_init_WF {arts : Artifacts} {lp : String} {ts ps : List String}
    {reg : List (String × String)} {maxLen B : Nat} {sh : Bool}
    {perm : List Nat → List Nat} {l : train_data_loader}
    (hmk : train_data_loader.init arts lp ts ps reg maxLen B sh perm = .ok l)
    (hperm : ∀ xs, (perm xs).Perm xs) :
    (∀ i ∈ l.yield_idx, i < l.label.length) ∧
    (∀ i ∈ l.yield_idx, i < l.inp_last_idx.length) ∧
    (∀ ch ∈ l.inp_seq, ChannelOK l.max_seq_len ch) ∧
    l.n_batch = nBatches l.yield_idx.length l.batch_size ∧
    0 < l.batch_size ∧
    l.yield_idx.Perm (List.range l.len) ∧
    l.label.length = l.len ∧ l.inp_last_idx.length = l.len := by
  obtain ⟨label, chs, ch0, hlab, hchs, hhead, hlen, hB, hl⟩ := train_init_ok hmk
  subst hl
  have hy : (if sh then perm (List.range label.length)
      else List.range label.length).Perm (List.range label.length) := by
    cases sh with
    | true => exact hperm _
    | false => exact List.Perm.refl _
  have hylen : (if sh then perm (List.range label.length)
      else List.range label.length).length = label.length := by
    rw [hy.length_eq, List.length_range]
  have hmemy : ∀ i ∈ (if sh then perm (List.range label.length)
      else List.range label.length), i < label.length := by
    intro i hi
    have := hy.mem_iff.mp hi
    exact List.mem_range.mp this
  refine ⟨hmemy, ?_, ?_, ?_, Nat.pos_of_ne_zero hB, hy, rfl, ?_⟩
  · intro i hi
    have h1 := hmemy i hi
    simpa [List.length_map, ← hlen] using h1
  · intro ch hch
    rcases mapExc_mem hchs ch hch with ⟨tp, _, hld⟩
    exact loadChannel_ChannelOK hld
  · rw [hylen]
  · simp [List.length_map, hlen]

theorem test_init_WF {arts : Artifacts} {ts ps : List String}
    {reg : List (String × String)} {maxLen B : Nat} {l : test_data_loader}
    (hmk : test_data_loader.init arts ts ps reg maxLen B = .ok l) :
    (∀ i ∈ l.yield_idx, i < l.inp_last_idx.length) ∧
    (∀ ch ∈ l.inp_seq, ChannelOK l.max_seq_len ch) ∧
    l.n_batch = nBatches l.yield_idx.length l.batch_size ∧
    0 < l.batch_size ∧
    l.yield_idx = List.range l.len ∧
    l.inp_last_idx.length = l.len := by
  obtain ⟨chs, ch0, hchs, hhead, hB, hl⟩ := test_init_ok hmk
  subst hl
  refine ⟨?_, ?_, ?_, Nat.pos_of_ne_zero hB, rfl, by simp [List.length_map]⟩
  · intro i hi
    have := List.mem_range.mp hi
    simpa [List.length_map] using this
  · intro ch hch
    rcases mapExc_mem hchs ch hch with ⟨tp, _, hld⟩
    exact loadChannel_ChannelOK hld
  · rw [List.length_range]

theorem train_eta_cur {l : train_data_loader} {c : Nat} (h : l.cur_batch = c) :
    l = { l with cur_batch := c } := by
  subst h
  rfl

theorem test_eta_cur {l : test_data_loader} {c : Nat} (h : l.cur_batch = c) :
    l = { l with cur_batch := c } := by
  subst h
  rfl

theorem passT_spec : ∀ (fuel : Nat) (l : train_data_loader),
    (∀ i ∈ l.yield_idx, i < l.label.length) →
    (∀ i ∈ l.yield_idx, i < l.inp_last_idx.length) →
    (∀ ch ∈ l.inp_seq, l.len ≤ ch.length) →
    (∀ i ∈ l.yield_idx, i < l.len) →
    (∀ ch ∈ l.inp_seq, ChannelOK l.max_seq_len ch) →
    l.n_batch = nBatches l.yield_idx.length l.batch_size →
    0 < l.batch_size →
    l.cur_batch ≤ l.n_batch →
    l.n_batch - l.cur_batch ≤ fuel →
    (passT fuel l).1.length = l.n_batch - l.cur_batch ∧
    (passT fuel l).2.1 = none ∧
    (passT fuel l).2.2 = { l with cur_batch := l.n_batch } := by
  intro fuel
  induction fuel with
  | zero =>
    intro l h1 h2 h3 h4 h5 h6 hB hcur hfuel
    have heq : l.cur_batch = l.n_batch := by omega
    refine ⟨by simpa [passT] using by omega, rfl, train_eta_cur heq⟩
  | succ fuel ih =>
    intro l h1 h2 h3 h4 h5 h6 hB hcur hfuel
    by_cases hstop : l.n_batch ≤ l.cur_batch
    · have heq : l.cur_batch = l.n_batch := by omega
      have hnext := train_next_stop hstop
      unfold passT
      rw [hnext]
      refine ⟨by simp; omega, rfl, train_eta_cur heq⟩
    · have hcur' : l.cur_batch < l.n_batch := by omega
      have hk : l.cur_batch < nBatches l.yield_idx.length l.batch_size := by
        rw [← h6]; exact hcur'
      have hne := sliceIdx_ne_nil hB hk
      have hwmem : ∀ i ∈ sliceIdx l.yield_idx l.batch_size l.cur_batch, i ∈ l.yield_idx :=
        fun i hi => sliceIdx_mem hi
      obtain ⟨y, xs, li, hnext⟩ := train_next_ok hcur'
        (fun i hi => h1 i (hwmem i hi))
        (fun i hi => h2 i (hwmem i hi))
        (fun ch hch i hi => lt_of_lt_of_le (h4 i (hwmem i hi)) (h3 ch hch))
        h5 hne
      unfold passT
      rw [hnext]
      dsimp only []
      have hrec := ih { l with cur_batch := l.cur_batch + 1 }
        h1 h2 h3 h4 h5 h6 hB (by dsimp only []; omega) (by dsimp only []; omega)
      refine ⟨?_, hrec.2.1, hrec.2.2⟩
      rw [List.length_cons, hrec.1]
      dsimp only []
      omega

theorem passE_spec : ∀ (fuel : Nat) (l : test_data_loader),
    (∀ i ∈ l.yield_idx, i < l.inp_last_idx.length) →
    (∀ ch ∈ l.inp_seq, l.len ≤ ch.length) →
    (∀ i ∈ l.yield_idx, i < l.len) →
    (∀ ch ∈ l.inp_seq, ChannelOK l.max_seq_len ch) →
    l.n_batch = nBatches l.yield_idx.length l.batch_size →
    0 < l.batch_size →
    l.cur_batch ≤ l.n_batch →
    l.n_batch - l.cur_batch ≤ fuel →
    (passE fuel l).1.length = l.n_batch - l.cur_batch ∧
    (passE fuel l).2.1 = none ∧
    (passE fuel l).2.2 = { l with cur_batch := l.n_batch } := by
  intro fuel
  induction fuel with
  | zero =>
    intro l h2 h3 h4 h5 h6 hB hcur hfuel
    have heq : l.cur_batch = l.n_batch := by omega
    refine ⟨by simpa [passE] using by omega, rfl, test_eta_cur heq⟩
  | succ fuel ih =>
    intro l h2 h3 h4 h5 h6 hB hcur hfuel
    by_cases hstop : l.n_batch ≤ l.cur_batch
    · have heq : l.cur_batch = l.n_batch := by omega
      have hnext := test_next_stop hstop
      unfold passE
      rw [hnext]
      refine ⟨by simp; omega, rfl, test_eta_cur heq⟩
    · have hcur' : l.cur_batch < l.n_batch := by omega
      have hk : l.cur_batch < nBatches l.yield_idx.length l.batch_size := by
        rw [← h6]; exact hcur'
      have hne := sliceIdx_ne_nil hB hk
      have hwmem : ∀ i ∈ sliceIdx l.yield_idx l.batch_size l.cur_batch, i ∈ l.yield_idx :=
        fun i hi => sliceIdx_mem hi
      obtain ⟨xs, li, hnext⟩ := test_next_ok hcur'
        (fun i hi => h2 i (hwmem i hi))
        (fun ch hch i hi => lt_of_lt_of_le (h4 i (hwmem i hi)) (h3 ch hch))
        h5 hne
      unfold passE
      rw [hnext]
      dsimp only []
      have hrec := ih { l with cur_batch := l.cur_batch + 1 }
        h2 h3 h4 h5 h6 hB (by dsimp only []; omega) (by dsimp only []; omega)
      refine ⟨?_, hrec.2.1, hrec.2.2⟩
      rw [List.length_cons, hrec.1]
      dsimp only []
      omega

theorem passT_frame : ∀ (fuel : Nat) (l : train_data_loader),
    ∃ c, (passT fuel l).2.2 = { l with cur_batch := c } := by
  intro fuel
  induction fuel with
  | zero => intro l; exact ⟨l.cur_batch, rfl⟩
  | succ fuel ih =>
    intro l
    cases hnext : l.next with
    | error e => exact ⟨l.cur_batch, by unfold passT; rw [hnext]⟩
    | ok ob =>
      cases ob with
      | none => exact ⟨l.cur_batch, by unfold passT; rw [hnext]⟩
      | some p =>
        obtain ⟨b, l'⟩ := p
        have hl' := (train_next_ok_inv hnext).2.1
        subst hl'
        obtain ⟨c, hc⟩ := ih { l with cur_batch := l.cur_batch + 1 }
        refine ⟨c, ?_⟩
        unfold passT
        rw [hnext]
        dsimp only []
        exact hc

theorem passE_frame : ∀ (fuel : Nat) (l : test_data_loader),
    ∃ c, (passE fuel l).2.2 = { l with cur_batch := c } := by
  intro fuel
  induction fuel with
  | zero => intro l; exact ⟨l.cur_batch, rfl⟩
  | succ fuel ih =>
    intro l
    cases hnext : l.next with
    | error e => exact ⟨l.cur_batch, by unfold passE; rw [hnext]⟩
    | ok ob =>
      cases ob with
      | none => exact ⟨l.cur_batch, by unfold passE; rw [hnext]⟩
      | some p =>
        obtain ⟨b, l'⟩ := p
        have hl' := (test_next_ok_inv hnext).2.1
        subst hl'
        obtain ⟨c, hc⟩ := ih { l with cur_batch := l.cur_batch + 1 }
        refine ⟨c, ?_⟩
        unfold passE
        rw [hnext]
        dsimp only []
        exact hc

/-- The first batch yielded by `ltrain5` (labels, padded channel tensors,
last indices). -/
def exB1 : TrainBatch :=
  ((ltrain5.next.toOption.getD none).getD (([], [], []), junkTrain)).1

/-- The loader state after yielding the first batch of `ltrain5`. -/
def exL1 : train_data_loader :=
  ((ltrain5.next.toOption.getD none).getD (([], [], []), junkTrain)).2

theorem mapExc_cons_ok {f : α → Except ε β} {a : α} {as : List α} {bs : List β}
    (h : mapExc f (a :: as) = .ok bs) :
    ∃ b bs', f a = .ok b ∧ mapExc f as = .ok bs' ∧ bs = b :: bs' := by
  simp only [mapExc] at h
  cases hfa : f a with
  | error e => rw [hfa] at h; simp at h
  | ok b =>
    rw [hfa] at h
    cases hrec : mapExc f as with
    | error e => rw [hrec] at h; simp at h
    | ok cs =>
      rw [hrec] at h
      simp only [Except.ok.injEq] at h
      exact ⟨b, cs, rfl, rfl, h.symm⟩

/-! ### The claims -/

/-- C5: for every successful training construction, `n_batch` equals
`floor(N/B) + (1 if N mod B != 0 else 0)`, i.e. the ceiling of `N / B`
(the final batch may be short; the `N=5, B=2` window scenario is checked
at the witness). -/
theorem C5_n_batch_ceil {arts : Artifacts} {lp : String} {ts ps : List String}
    {reg : List (String × String)} {maxLen B : Nat} {sh : Bool}
    {perm : List Nat → List Nat} {l : train_data_loader}
    (hmk : train_data_loader.init arts lp ts ps reg maxLen B sh perm = .ok l) :
    l.n_batch = l.len / l.batch_size +
      (if l.len % l.batch_size = 0 then 0 else 1) ∧
    l.n_batch = (l.len + l.batch_size - 1) / l.batch_size := by
  obtain ⟨label, chs, ch0, _, _, _, _, hB, hl⟩ := train_init_ok hmk
  subst hl
  have hBpos : 0 < B := Nat.pos_of_ne_zero hB
  exact ⟨(nBatches_ceil hBpos).2, (nBatches_ceil hBpos).1⟩

/-- Witness for C5: `N = 5`, `batch_size = 2`, `shuffle = False` gives
`n_batch = 3` with windows `[0,1]`, `[2,3]`, `[4]` (final window of
length 1). -/
theorem C5_witness :
    train_data_loader.init exArts "y.npy" ["prod", "crea"] ["a.pkl", "b.pkl"] exReg
      100 2 false id = .ok ltrain5 ∧
    ltrain5.len = 5 ∧ ltrain5.batch_size = 2 ∧ ltrain5.n_batch = 3 ∧
    sliceIdx ltrain5.yield_idx ltrain5.batch_size 0 = [0, 1] ∧
    sliceIdx ltrain5.yield_idx ltrain5.batch_size 1 = [2, 3] ∧
    sliceIdx ltrain5.yield_idx ltrain5.batch_size 2 = [4] ∧
    (ltrain5.n_batch = ltrain5.len / ltrain5.batch_size +
        (if ltrain5.len % ltrain5.batch_size = 0 then 0 else 1) ∧
      ltrain5.n_batch = (ltrain5.len + ltrain5.batch_size - 1) / ltrain5.batch_size) :=
  ⟨rfl, rfl, rfl, rfl, rfl, rfl, rfl,
    C5_n_batch_ceil (show train_data_loader.init exArts "y.npy" ["prod", "crea"]
      ["a.pkl", "b.pkl"] exReg 100 2 false id = .ok ltrain5 from rfl)⟩

/-- C9: a successful `next` mutates only the batch cursor (incremented by
one): labels, channel data, last indices, permutation, batch count and
every configuration field are unchanged, and stepping at equal cursors
from the pre- and post-step states is the same operation; this holds for
the training and the inference loader. -/
theorem C9_next_frame :
    (∀ (l l' : train_data_loader) (b : TrainBatch), l.next = .ok (some (b, l')) →
      l'.label = l.label ∧ l'.inp_seq = l.inp_seq ∧ l'.inp_last_idx = l.inp_last_idx ∧
      l'.yield_idx = l.yield_idx ∧ l'.len = l.len ∧ l'.n_batch = l.n_batch ∧
      l'.label_artifact_path = l.label_artifact_path ∧
      l'.seq_inp_target = l.seq_inp_target ∧ l'.seq_inp_path = l.seq_inp_path ∧
      l'.w2v_registry = l.w2v_registry ∧ l'.max_seq_len = l.max_seq_len ∧
      l'.batch_size = l.batch_size ∧ l'.shuffle = l.shuffle ∧
      l'.cur_batch = l.cur_batch + 1 ∧
      (∀ k : Nat, train_data_loader.next { l with cur_batch := k } =
        train_data_loader.next { l' with cur_batch := k })) ∧
    (∀ (l l' : test_data_loader) (b : TestBatch), l.next = .ok (some (b, l')) →
      l'.inp_seq = l.inp_seq ∧ l'.inp_last_idx = l.inp_last_idx ∧
      l'.yield_idx = l.yield_idx ∧ l'.len = l.len ∧ l'.n_batch = l.n_batch ∧
      l'.seq_inp_target = l.seq_inp_target ∧ l'.seq_inp_path = l.seq_inp_path ∧
      l'.w2v_registry = l.w2v_registry ∧ l'.max_seq_len = l.max_seq_len ∧
      l'.batch_size = l.batch_size ∧
      l'.cur_batch = l.cur_batch + 1 ∧
      (∀ k : Nat, test_data_loader.next { l with cur_batch := k } =
        test_data_loader.next { l' with cur_batch := k })) := by
  constructor
  · intro l l' b h
    have hl' := (train_next_ok_inv h).2.1
    subst hl'
    exact ⟨rfl, rfl, rfl, rfl, rfl, rfl, rfl, rfl, rfl, rfl, rfl, rfl, rfl, rfl,
      fun k => rfl⟩
  · intro l l' b h
    have hl' := (test_next_ok_inv h).2.1
    subst hl'
    exact ⟨rfl, rfl, rfl, rfl, rfl, rfl, rfl, rfl, rfl, rfl, rfl, fun k => rfl⟩

/-- Witness for C9: the first step of `ltrain5` leaves every non-cursor
field unchanged and bumps the cursor to 1. -/
theorem C9_witness :
    ltrain5.next = .ok (some (exB1, exL1)) ∧
    exL1.label = ltrain5.label ∧ exL1.inp_seq = ltrain5.inp_seq ∧
    exL1.inp_last_idx = ltrain5.inp_last_idx ∧ exL1.yield_idx = ltrain5.yield_idx ∧
    exL1.cur_batch = ltrain5.cur_batch + 1 := by
  obtain ⟨h1, h2, h3, h4, _, _, _, _, _, _, _, _, _, hcur, _⟩ :=
    C9_next_frame.1 ltrain5 exL1 exB1 rfl
  exact ⟨rfl, h1, h2, h3, h4, hcur⟩

/-- C7: the permutation is computed once, at construction: `iter` only
resets the cursor (reusing `yield_idx`), a full re-iteration after a pass
reproduces the pass exactly (shuffled or not), and two constructions with
shuffle disabled over identical inputs are identical loaders with
identical passes (the random source is never consulted). -/
theorem C7_permutation_once :
    (∀ l : train_data_loader, l.iter = { l with cur_batch := 0 } ∧
       l.iter.yield_idx = l.yield_idx ∧
       fullPassT ((fullPassT l).2.2) = fullPassT l) ∧
    (∀ l : test_data_loader, l.iter = { l with cur_batch := 0 } ∧
       l.iter.yield_idx = l.yield_idx ∧
       fullPassE ((fullPassE l).2.2) = fullPassE l) ∧
    (∀ (arts : Artifacts) (lp : String) (ts ps : List String)
       (reg : List (String × String)) (maxLen B : Nat)
       (p1 p2 : List Nat → List Nat),
       train_data_loader.init arts lp ts ps reg maxLen B false p1 =
         train_data_loader.init arts lp ts ps reg maxLen B false p2) ∧
    (∀ (arts : Artifacts) (lp : String) (ts ps : List String)
       (reg : List (String × String)) (maxLen B : Nat)
       (p1 p2 : List Nat → List Nat) (l1 l2 : train_data_loader),
       train_data_loader.init arts lp ts ps reg maxLen B false p1 = .ok l1 →
       train_data_loader.init arts lp ts ps reg maxLen B false p2 = .ok l2 →
       l1 = l2 ∧ fullPassT l1 = fullPassT l2) := by
  refine ⟨?_, ?_, ?_, ?_⟩
  · intro l
    refine ⟨rfl, rfl, ?_⟩
    obtain ⟨c, hc⟩ := passT_frame l.n_batch l.iter
    show fullPassT ((passT l.n_batch l.iter).2.2) = fullPassT l
    rw [hc]
    rfl
  · intro l
    refine ⟨rfl, rfl, ?_⟩
    obtain ⟨c, hc⟩ := passE_frame l.n_batch l.iter
    show fullPassE ((passE l.n_batch l.iter).2.2) = fullPassE l
    rw [hc]
    rfl
  · intro arts lp ts ps reg maxLen B p1 p2
    rfl
  · intro arts lp ts ps reg maxLen B p1 p2 l1 l2 h1 h2
    have hdet : train_data_loader.init arts lp ts ps reg maxLen B false p1 =
        train_data_loader.init arts lp ts ps reg maxLen B false p2 := rfl
    rw [h1, h2] at hdet
    simp only [Except.ok.injEq] at hdet
    exact ⟨hdet, by rw [hdet]⟩

/-- Witness for C7: restarting the shuffled 5-sample loader reproduces
its pass, and constructing twice without shuffle under different random
sources yields the same loader and pass. -/
theorem C7_witness :
    (ltrain5s.iter = { ltrain5s with cur_batch := 0 } ∧
     ltrain5s.iter.yield_idx = ltrain5s.yield_idx ∧
     fullPassT ((fullPassT ltrain5s).2.2) = fullPassT ltrain5s) ∧
    (ltrain5 = ltrain5 ∧ fullPassT ltrain5 = fullPassT ltrain5) :=
  ⟨C7_permutation_once.1 ltrain5s,
   C7_permutation_once.2.2.2 exArts "y.npy" ["prod", "crea"] ["a.pkl", "b.pkl"] exReg
     100 2 id List.reverse ltrain5 ltrain5 rfl rfl⟩

/-- C10: a sample whose raw token sequence is empty makes construction
fail (stacking an empty list of vectors raises), so no loader is built
from such data; consequently every channel matrix of a successfully
constructed loader has at least one row and every last-index entry is
nonnegative. -/
theorem C10_empty_sequence :
    (∀ (arts : Artifacts) (lp : String) (ts ps : List String)
       (reg : List (String × String)) (maxLen B : Nat) (sh : Bool)
       (perm : List Nat → List Nat) (t p : String) (raws : List (List Nat)),
       (t, p) ∈ ts.zip ps → arts.seqs p = some raws → [] ∈ raws →
       ∀ l, train_data_loader.init arts lp ts ps reg maxLen B sh perm ≠ .ok l) ∧
    (∀ (arts : Artifacts) (lp : String) (ts ps : List String)
       (reg : List (String × String)) (maxLen B : Nat) (sh : Bool)
       (perm : List Nat → List Nat) (l : train_data_loader),
       train_data_loader.init arts lp ts ps reg maxLen B sh perm = .ok l →
       (∀ ch ∈ l.inp_seq, ∀ m ∈ ch, 1 ≤ m.length) ∧
       (∀ x ∈ l.inp_last_idx, 0 ≤ x)) := by
  constructor
  · intro arts lp ts ps reg maxLen B sh perm t p raws hmem hraws hempty l hmk
    obtain ⟨label, chs, ch0, _, hchs, _, _, _, _⟩ := train_init_ok hmk
    obtain ⟨ch, hld⟩ := mapExc_forall hchs (t, p) hmem
    obtain ⟨pth, model, raws', _, _, hraws', hmap⟩ := loadChannel_ok hld
    rw [hraws] at hraws'
    cases hraws'
    obtain ⟨m, hemb⟩ := mapExc_forall hmap [] hempty
    rw [embedSeq_nil] at hemb
    cases hemb
  · intro arts lp ts ps reg maxLen B sh perm l hmk
    obtain ⟨label, chs, ch0, _, hchs, hhead, _, _, hl⟩ := train_init_ok hmk
    subst hl
    have hch0 : ch0 ∈ chs := by
      cases chs with
      | nil => simp at hhead
      | cons a r =>
        simp only [List.head?_cons, Option.some.injEq] at hhead
        rw [← hhead]
        exact List.mem_cons_self a r
    have hok : ∀ ch ∈ chs, ∀ m ∈ ch, 1 ≤ m.length := by
      intro ch hch m hm
      rcases mapExc_mem hchs ch hch with ⟨tp, _, hld⟩
      obtain ⟨d, hd⟩ := loadChannel_ChannelOK hld
      have hne := (hd m hm).1
      have hpos := List.length_pos.mpr hne
      omega
    refine ⟨hok, ?_⟩
    intro x hx
    rcases List.mem_map.mp hx with ⟨m, hm, rfl⟩
    have h1 := hok ch0 hch0 m hm
    omega

theorem get?_map_eq {f : α → β} {l : List α} {i : Nat} :
    (l.map f).get? i = (l.get? i).map f := by
  simp [List.get?_eq_getElem?, List.getElem?_map]

/-- C4: the last-index value shipped with any batch containing sample `i`
is channel 0's truncated length for `i` minus one, where the truncated
length is `min(raw length, max_seq_len)`; it is a lookup into an array
fixed at construction, independent of `batch_size`, the shuffle flag and
the random source. -/
theorem C4_last_idx {arts : Artifacts} {lp : String} {t0 p0 : String}
    {ts' ps' : List String} {reg : List (String × String)} {maxLen B : Nat}
    {sh : Bool} {perm : List Nat → List Nat} {l : train_data_loader}
    {raws : List (List Nat)}
    (hmk : train_data_loader.init arts lp (t0 :: ts') (p0 :: ps')
      reg maxLen B sh perm = .ok l)
    (hraws : arts.seqs p0 = some raws) :
    l.len = raws.length ∧
    (∀ i s, raws.get? i = some s →
       l.inp_last_idx.get? i = some (((min s.length maxLen : Nat) : Int) - 1)) ∧
    (∀ k y xs li l',
       train_data_loader.next { l with cur_batch := k } = .ok (some ((y, xs, li), l')) →
       ∀ j i, (sliceIdx l.yield_idx l.batch_size k).get? j = some i →
         li.get? j = l.inp_last_idx.get? i) ∧
    (∀ (B' : Nat) (sh' : Bool) (perm' : List Nat → List Nat) (l' : train_data_loader),
       train_data_loader.init arts lp (t0 :: ts') (p0 :: ps')
         reg maxLen B' sh' perm' = .ok l' →
       l'.inp_last_idx = l.inp_last_idx) := by
  obtain ⟨label, chs, ch0, hlab, hchs, hhead, hlen, hB, hl⟩ := train_init_ok hmk
  obtain ⟨c0, crest, hc0, _, hbs⟩ := mapExc_cons_ok hchs
  subst hbs
  have hch0 : ch0 = c0 := by
    simp only [List.head?_cons, Option.some.injEq] at hhead
    exact hhead.symm
  subst hch0
  obtain ⟨pth, model, raws', hpth, hw2v, hraws', hmap⟩ := loadChannel_ok hc0
  dsimp only [] at hraws'
  rw [hraws] at hraws'
  injection hraws' with hr2
  subst hr2
  subst hl
  refine ⟨?_, ?_, ?_, ?_⟩
  · show label.length = raws.length
    rw [hlen]
    exact mapExc_length hmap
  · intro i s hs
    obtain ⟨m, hm, hemb⟩ := mapExc_get? hmap i s hs
    obtain ⟨_, hmlen, _⟩ := embedSeq_ok hemb
    show (ch0.map fun mm => ((mm.length : Int) - 1)).get? i =
      some (((min s.length maxLen : Nat) : Int) - 1)
    rw [get?_map_eq, hm]
    simp only [Option.map_some']
    rw [hmlen, Nat.min_comm]
  · intro k y xs li l' hnext j i hj
    exact gather_get? (train_next_ok_inv hnext).2.2.2.2 hj
  · intro B' sh' perm' l' hmk'
    obtain ⟨label2, chs2, ch02, hlab2, hchs2, hhead2, _, _, hl2⟩ := train_init_ok hmk'
    subst hl2
    rw [hchs] at hchs2
    injection hchs2 with hc2
    subst hc2
    have : ch02 = ch0 := by
      simp only [List.head?_cons, Option.some.injEq] at hhead2
      exact hhead2.symm
    rw [this]

/-- Witness for C4: a raw sequence of length 150 with `max_seq_len = 100`
truncates to 100, and its shipped last index is 99. -/
theorem C4_witness :
    train_data_loader.init exArts "one.npy" ["prod"] ["c.pkl"] exReg
      100 512 false id = .ok loader150 ∧
    exArts.seqs "c.pkl" = some [List.replicate 150 7] ∧
    loader150.inp_last_idx.get? 0 = some 99 ∧
    loader150.inp_last_idx.get? 0 =
      some (((min (List.replicate 150 7 : List Nat).length 100 : Nat) : Int) - 1) := by
  have h := C4_last_idx
    (show train_data_loader.init exArts "one.npy" ["prod"] ["c.pkl"] exReg
      100 512 false id = .ok loader150 from rfl)
    (show exArts.seqs "c.pkl" = some [List.replicate 150 7] from rfl)
  exact ⟨rfl, rfl, rfl, h.2.1 0 (List.replicate 150 7) rfl⟩

theorem zip_append_left {α β : Type _} : ∀ (ts : List α) (ps extra : List β),
    ts.length ≤ ps.length → ts.zip (ps ++ extra) = ts.zip ps := by
  intro ts
  induction ts with
  | nil => intro ps extra h; simp
  | cons a as ih =>
    intro ps extra h
    cases ps with
    | nil => simp at h
    | cons p ps' =>
      simp only [List.cons_append, List.zip_cons_cons]
      rw [ih ps' extra (by simpa using h)]

/-- C6 (amended): the constructor never compares the lengths of the
channel-name and channel-path lists; `zip` pairs them positionally and
silently drops the surplus, so appending extra (well-suffixed) paths
leaves the result unchanged except for the stored path list itself, and a
loader is constructed from positionally mismatched lists rather than
failing with the configuration assert. -/
theorem C6_zip_truncation (arts : Artifacts) (lp : String)
    (ts ps extra : List String) (reg : List (String × String))
    (maxLen B : Nat) (sh : Bool) (perm : List Nat → List Nat)
    (hlen : ts.length ≤ ps.length)
    (hextra : ∀ p ∈ extra, pySuffix p = "pkl") :
    train_data_loader.init arts lp ts (ps ++ extra) reg maxLen B sh perm =
      Except.map (fun l => { l with seq_inp_path := ps ++ extra })
        (train_data_loader.init arts lp ts ps reg maxLen B sh perm) := by
  have hzip : ts.zip (ps ++ extra) = ts.zip ps := zip_append_left ts ps extra hlen
  have hall : ((ps ++ extra).all fun v => decide (pySuffix v = "pkl")) =
      (ps.all fun v => decide (pySuffix v = "pkl")) := by
    rw [List.all_append]
    have hex : (extra.all fun v => decide (pySuffix v = "pkl")) = true :=
      List.all_eq_true.mpr fun p hp => decide_eq_true (hextra p hp)
    rw [hex, Bool.and_true]
  unfold train_data_loader.init
  rw [hzip, hall]
  by_cases h1 : pySuffix lp ≠ "npy"
  · rw [if_pos h1, if_pos h1]; rfl
  rw [if_neg h1, if_neg h1]
  by_cases h2 : ¬ (ts.all fun k => (lookupStr reg k).isSome)
  · rw [if_pos h2, if_pos h2]; rfl
  rw [if_neg h2, if_neg h2]
  by_cases h3 : ¬ (ps.all fun v => pySuffix v = "pkl")
  · rw [if_pos h3, if_pos h3]; rfl
  rw [if_neg h3, if_neg h3]
  cases h4 : arts.labels lp with
  | none => rfl
  | some label =>
    dsimp only []
    cases h5 : mapExc (loadChannel arts reg maxLen) (ts.zip ps) with
    | error e => rfl
    | ok chs =>
      dsimp only []
      cases h6 : chs.head? with
      | none => rfl
      | some ch0 =>
        dsimp only []
        by_cases h7 : label.length ≠ (ch0.map fun m => ((m.length : Int) - 1)).length
        · rw [if_pos h7, if_pos h7]; rfl
        rw [if_neg h7, if_neg h7]
        by_cases h8 : B = 0
        · rw [if_pos h8, if_pos h8]; rfl
        rw [if_neg h8, if_neg h8]
        rfl

/-- Counterexample to C6 as stated: one channel name with two channel
paths passes every constructor assert and yields a loader (with the
stored name and path lists of unequal lengths 1 and 2, and a single
loaded channel); no ConfigurationError is raised. -/
theorem C6_counterexample :
    (train_data_loader.init exArts "one.npy" ["prod"] ["a1.pkl", "b.pkl"] exReg
      100 1 false id).toOption.map
        (fun l => (l.seq_inp_target.length, l.seq_inp_path.length, l.inp_seq.length)) =
      some (1, 2, 1) := rfl

/-- Witness for C6 (amended): appending the surplus path `"b.pkl"` to the
matched configuration changes only the stored path list. -/
theorem C6_witness :
    train_data_loader.init exArts "one.npy" ["prod"] ["a1.pkl", "b.pkl"] exReg
      100 1 false id =
    Except.map (fun l => { l with seq_inp_path := ["a1.pkl", "b.pkl"] })
      (train_data_loader.init exArts "one.npy" ["prod"] ["a1.pkl"] exReg
        100 1 false id) :=
  C6_zip_truncation exArts "one.npy" ["prod"] ["a1.pkl"] ["b.pkl"] exReg 100 1 false id
    (by decide) (by decide)

/-- C2 (amended): construction checks only that the label length equals
channel 0's sample count — it fails with the shape assert exactly on that
mismatch, and a successful construction guarantees only
`label.length = N = channel-0 count`; the other channels' sample counts
are never compared (see the counterexample). -/
theorem C2_shape_check :
    (∀ (arts : Artifacts) (lp : String) (ts ps : List String)
       (reg : List (String × String)) (maxLen B : Nat) (sh : Bool)
       (perm : List Nat → List Nat) (l : train_data_loader),
       train_data_loader.init arts lp ts ps reg maxLen B sh perm = .ok l →
       l.label.length = l.len ∧ l.inp_last_idx.length = l.len ∧
       l.len = (l.inp_seq.headD []).length) ∧
    (∀ (arts : Artifacts) (lp : String) (ts ps : List String)
       (reg : List (String × String)) (maxLen B : Nat) (sh : Bool)
       (perm : List Nat → List Nat) (label : List Int)
       (chs : List (List Mat)) (ch0 : List Mat),
       pySuffix lp = "npy" →
       (ts.all fun k => (lookupStr reg k).isSome) = true →
       (ps.all fun v => decide (pySuffix v = "pkl")) = true →
       arts.labels lp = some label →
       mapExc (loadChannel arts reg maxLen) (ts.zip ps) = .ok chs →
       chs.head? = some ch0 →
       label.length ≠ ch0.length →
       train_data_loader.init arts lp ts ps reg maxLen B sh perm =
         .error .shapeMismatchError) := by
  constructor
  · intro arts lp ts ps reg maxLen B sh perm l hmk
    obtain ⟨label, chs, ch0, _, _, hhead, hlen, _, hl⟩ := train_init_ok hmk
    subst hl
    refine ⟨rfl, by simp [List.length_map, hlen], ?_⟩
    show label.length = (chs.headD []).length
    cases chs with
    | nil => simp at hhead
    | cons a r =>
      simp only [List.head?_cons, Option.some.injEq] at hhead
      rw [List.headD_cons, hhead]
      exact hlen
  · intro arts lp ts ps reg maxLen B sh perm label chs ch0 h1 h2 h3 h4 h5 h6 h7
    unfold train_data_loader.init
    rw [if_neg (fun hc => hc h1), if_neg (not_not_intro h2), if_neg (not_not_intro h3), h4]
    dsimp only []
    rw [h5]
    dsimp only []
    rw [h6]
    dsimp only []
    rw [if_pos (by rw [List.length_map]; exact h7)]

/-- Counterexample to C2 as stated: with channel 0 and the label agreeing
on one sample but channel 1 holding zero samples, construction succeeds —
the sample counts of the non-zero channels are never validated. -/
theorem C2_counterexample :
    train_data_loader.init exArts "one.npy" ["prod", "crea"] ["a1.pkl", "bad.pkl"] exReg
      100 1 false id = .ok lbad ∧
    lbad.label.length = 1 ∧ lbad.inp_seq.map List.length = [1, 0] :=
  ⟨rfl, rfl, rfl⟩

/-- Witness for C2 (amended): a 2-label file over a 1-sample channel 0
fails with the shape assert, while `ltrain5` satisfies the checked
equalities. -/
theorem C2_witness :
    train_data_loader.init exArts "two.npy" ["prod"] ["a1.pkl"] exReg
      100 1 false id = .error .shapeMismatchError ∧
    ltrain5.label.length = ltrain5.len := by
  refine ⟨?_, (C2_shape_check.1 exArts "y.npy" ["prod", "crea"] ["a.pkl", "b.pkl"]
    exReg 100 2 false id ltrain5 rfl).1⟩
  exact C2_shape_check.2 exArts "two.npy" ["prod"] ["a1.pkl"] exReg 100 1 false id
    [1, 2] [[[[1]]]] [[[1]]] (by decide) (by decide) (by decide) rfl rfl rfl (by decide)

/-- C8 (amended): a step at `cursor >= n_batch` yields no batch and
signals end-of-sequence (`.ok none`, structurally distinct from every
fatal `.error`); a step at `cursor < n_batch` returns a batch and bumps
the cursor by one provided every channel holds at least `len` samples —
with a shorter channel such a step instead fails with an index error
(see the counterexample). -/
theorem C8_step_protocol :
    (∀ l : train_data_loader, l.n_batch ≤ l.cur_batch → l.next = .ok none) ∧
    (∀ l : test_data_loader, l.n_batch ≤ l.cur_batch → l.next = .ok none) ∧
    (∀ e : LoaderError,
       (Except.ok none : Except LoaderError (Option (TrainBatch × train_data_loader)))
         ≠ .error e) ∧
    (∀ (arts : Artifacts) (lp : String) (ts ps : List String)
       (reg : List (String × String)) (maxLen B : Nat) (sh : Bool)
       (perm : List Nat → List Nat) (l : train_data_loader) (k : Nat),
       (∀ xs, (perm xs).Perm xs) →
       train_data_loader.init arts lp ts ps reg maxLen B sh perm = .ok l →
       (∀ ch ∈ l.inp_seq, l.len ≤ ch.length) →
       k < l.n_batch →
       ∃ y xs li, train_data_loader.next { l with cur_batch := k } =
         .ok (some ((y, xs, li), { l with cur_batch := k + 1 }))) ∧
    (∀ (arts : Artifacts) (ts ps : List String) (reg : List (String × String))
       (maxLen B : Nat) (l : test_data_loader) (k : Nat),
       test_data_loader.init arts ts ps reg maxLen B = .ok l →
       (∀ ch ∈ l.inp_seq, l.len ≤ ch.length) →
       k < l.n_batch →
       ∃ xs li, test_data_loader.next { l with cur_batch := k } =
         .ok (some ((xs, li), { l with cur_batch := k + 1 }))) := by
  refine ⟨?_, ?_, ?_, ?_, ?_⟩
  · exact fun l h => train_next_stop h
  · exact fun l h => test_next_stop h
  · exact fun e h => Except.noConfusion h
  · intro arts lp ts ps reg maxLen B sh perm l k hperm hmk hch hk
    obtain ⟨h1, h2, hok, h6, hB, hyPerm, hlab, hlast⟩ := train_init_WF hmk hperm
    have h4 : ∀ i ∈ l.yield_idx, i < l.len := by
      intro i hi
      exact List.mem_range.mp (hyPerm.mem_iff.mp hi)
    have hk' : k < nBatches l.yield_idx.length l.batch_size := by
      rw [← h6]; exact hk
    have hne := sliceIdx_ne_nil hB hk'
    exact train_next_ok (l := { l with cur_batch := k }) hk
      (fun i hi => h1 i (sliceIdx_mem hi))
      (fun i hi => h2 i (sliceIdx_mem hi))
      (fun ch hchm i hi => lt_of_lt_of_le (h4 i (sliceIdx_mem hi)) (hch ch hchm))
      hok hne
  · intro arts ts ps reg maxLen B l k hmk hch hk
    obtain ⟨h2, hok, h6, hB, hyid, hlast⟩ := test_init_WF hmk
    have h4 : ∀ i ∈ l.yield_idx, i < l.len := by
      intro i hi
      rw [hyid] at hi
      exact List.mem_range.mp hi
    have hk' : k < nBatches l.yield_idx.length l.batch_size := by
      rw [← h6]; exact hk
    have hne := sliceIdx_ne_nil hB hk'
    exact test_next_ok (l := { l with cur_batch := k }) hk
      (fun i hi => h2 i (sliceIdx_mem hi))
      (fun ch hchm i hi => lt_of_lt_of_le (h4 i (sliceIdx_mem hi)) (hch ch hchm))
      hok hne

/-- Counterexample to C8 as stated: `lbad` is a constructed loader whose
cursor (0) is below `n_batch` (1), yet its step raises `IndexError`
instead of returning a batch (channel 1 holds no sample 0). -/
theorem C8_counterexample :
    train_data_loader.init exArts "one.npy" ["prod", "crea"] ["a1.pkl", "bad.pkl"] exReg
      100 1 false id = .ok lbad ∧
    lbad.cur_batch < lbad.n_batch ∧
    train_data_loader.next lbad = .error .indexError :=
  ⟨rfl, by decide, rfl⟩

/-- Witness for C8 (amended): exhausted cursors stop cleanly on both
loaders, and a below-bound cursor on the well-formed 5-sample loader
steps successfully. -/
theorem C8_witness :
    train_data_loader.next { ltrain5 with cur_batch := 3 } = .ok none ∧
    test_data_loader.next { ltest5 with cur_batch := 3 } = .ok none ∧
    (train_data_loader.next { ltrain5 with cur_batch := 1 }).toOption ≠ none := by
  refine ⟨C8_step_protocol.1 { ltrain5 with cur_batch := 3 } (by decide),
    C8_step_protocol.2.1 { ltest5 with cur_batch := 3 } (by decide), ?_⟩
  obtain ⟨y, xs, li, hnext⟩ := C8_step_protocol.2.2.2.1 exArts "y.npy" ["prod", "crea"]
    ["a.pkl", "b.pkl"] exReg 100 2 false id ltrain5 1
    (fun xs => List.Perm.refl xs) rfl (by decide) (by decide)
  rw [hnext]
  simp [Except.toOption]

theorem train_init_ChannelOK {arts : Artifacts} {lp : String} {ts ps : List String}
    {reg : List (String × String)} {maxLen B : Nat} {sh : Bool}
    {perm : List Nat → List Nat} {l : train_data_loader}
    (hmk : train_data_loader.init arts lp ts ps reg maxLen B sh perm = .ok l) :
    ∀ ch ∈ l.inp_seq, ChannelOK l.max_seq_len ch := by
  obtain ⟨label, chs, ch0, _, hchs, _, _, _, hl⟩ := train_init_ok hmk
  subst hl
  intro ch hch
  rcases mapExc_mem hchs ch hch with ⟨tp, _, hld⟩
  exact loadChannel_ChannelOK hld

theorem test_init_ChannelOK {arts : Artifacts} {ts ps : List String}
    {reg : List (String × String)} {maxLen B : Nat} {l : test_data_loader}
    (hmk : test_data_loader.init arts ts ps reg maxLen B = .ok l) :
    ∀ ch ∈ l.inp_seq, ChannelOK l.max_seq_len ch := by
  obtain ⟨chs, ch0, hchs, _, _, hl⟩ := test_init_ok hmk
  subst hl
  intro ch hch
  rcases mapExc_mem hchs ch hch with ⟨tp, _, hld⟩
  exact loadChannel_ChannelOK hld

/-- What one successful `gatherPad` guarantees channel by channel, given
the per-channel invariant: the padded tensor is the gathered matrices,
each right-padded with all-zero rows of the channel's embedding dimension
up to the window's own maximum length. -/
theorem gatherPad_spec {chs : List (List Mat)} {win : List Nat}
    {xs : List Tensor3} {maxLen : Nat}
    (hok : ∀ ch ∈ chs, ChannelOK maxLen ch)
    (h : gatherPad chs win = .ok xs) :
    xs.length = chs.length ∧
    ∀ c ch t, chs.get? c = some ch → xs.get? c = some t →
      ∃ ms d, gather ch win = some ms ∧
        ms.length = win.length ∧
        t = ms.map (fun m =>
          m ++ List.replicate (maxLenOf ms - m.length) (List.replicate d 0)) ∧
        t.length = win.length ∧
        (∀ m ∈ t, m.length = maxLenOf ms) ∧
        (∀ m ∈ t, ∀ r ∈ m, r.length = d) ∧
        maxLenOf ms ≤ maxLen ∧
        (∀ m ∈ ms, m.length ≤ maxLenOf ms) ∧
        (∃ m ∈ ms, m.length = maxLenOf ms) ∧
        (∀ j m, ms.get? j = some m →
           t.get? j = some (m ++
             List.replicate (maxLenOf ms - m.length) (List.replicate d 0))) := by
  refine ⟨mapExc_length h, ?_⟩
  intro c ch t hc ht
  obtain ⟨t', ht', hpc⟩ := mapExc_get? h c ch hc
  rw [ht] at ht'
  injection ht' with ht2
  subst ht2
  obtain ⟨d, hd⟩ := hok ch (List.get?_mem hc)
  unfold padChannel at hpc
  cases hms : gather ch win with
  | none => rw [hms] at hpc; simp at hpc
  | some ms =>
    rw [hms] at hpc
    dsimp only [] at hpc
    have hmem : ∀ m ∈ ms, m ∈ ch := fun m hm => gather_mem hms hm
    have hmsne : ms ≠ [] := by
      intro hnil
      rw [hnil] at hpc
      simp [padSequence] at hpc
    have hpad := padSequence_eq (d := d) hmsne
      (fun m hm => (hd m (hmem m hm)).2.2)
      (fun m hm => (hd m (hmem m hm)).1)
    rw [hpad] at hpc
    dsimp only [] at hpc
    simp only [Except.ok.injEq] at hpc
    subst hpc
    have hlen : ms.length = win.length := gather_length hms
    have hle : ∀ m ∈ ms, m.length ≤ maxLenOf ms := fun m hm => le_maxLenOf hm
    refine ⟨ms, d, rfl, hlen, rfl, by rw [List.length_map, hlen], ?_, ?_, ?_, hle,
      maxLenOf_attained hmsne, ?_⟩
    · intro m hm
      rcases List.mem_map.mp hm with ⟨m0, hm0, rfl⟩
      rw [List.length_append, List.length_replicate]
      have := hle m0 hm0
      omega
    · intro m hm r hr
      rcases List.mem_map.mp hm with ⟨m0, hm0, rfl⟩
      rcases List.mem_append.mp hr with hr0 | hrp
      · exact (hd m0 (hmem m0 hm0)).2.2 r hr0
      · rw [List.eq_of_mem_replicate hrp, List.length_replicate]
    · exact maxLenOf_le fun m hm => (hd m (hmem m hm)).2.1
    · intro j m hj
      rw [get?_map_eq, hj]
      rfl

/-- C3: every yielded batch's per-channel padded tensor has shape
`(window_length, local_max_len, embedding_dim)` with `local_max_len` the
maximum truncated length inside that window (hence at most
`max_seq_len`), and every row of a sample beyond its own truncated length
is an all-zero vector; for the training and the inference loader. -/
theorem C3_batch_padding :
    (∀ (arts : Artifacts) (lp : String) (ts ps : List String)
       (reg : List (String × String)) (maxLen B : Nat) (sh : Bool)
       (perm : List Nat → List Nat) (l : train_data_loader) (k : Nat)
       (y : List Int) (xs : List Tensor3) (li : List Int) (l' : train_data_loader),
       train_data_loader.init arts lp ts ps reg maxLen B sh perm = .ok l →
       train_data_loader.next { l with cur_batch := k } = .ok (some ((y, xs, li), l')) →
       xs.length = l.inp_seq.length ∧
       (∀ c ch t, l.inp_seq.get? c = some ch → xs.get? c = some t →
         ∃ ms d, gather ch (sliceIdx l.yield_idx l.batch_size k) = some ms ∧
           ms.length = (sliceIdx l.yield_idx l.batch_size k).length ∧
           t.length = (sliceIdx l.yield_idx l.batch_size k).length ∧
           (∀ m ∈ t, m.length = maxLenOf ms) ∧
           (∀ m ∈ t, ∀ r ∈ m, r.length = d) ∧
           maxLenOf ms ≤ l.max_seq_len ∧
           (∀ m ∈ ms, m.length ≤ maxLenOf ms) ∧
           (∃ m ∈ ms, m.length = maxLenOf ms) ∧
           (∀ j m, ms.get? j = some m →
              t.get? j = some (m ++
                List.replicate (maxLenOf ms - m.length) (List.replicate d 0))))) ∧
    (∀ (arts : Artifacts) (ts ps : List String) (reg : List (String × String))
       (maxLen B : Nat) (l : test_data_loader) (k : Nat)
       (xs : List Tensor3) (li : List Int) (l' : test_data_loader),
       test_data_loader.init arts ts ps reg maxLen B = .ok l →
       test_data_loader.next { l with cur_batch := k } = .ok (some ((xs, li), l')) →
       xs.length = l.inp_seq.length ∧
       (∀ c ch t, l.inp_seq.get? c = some ch → xs.get? c = some t →
         ∃ ms d, gather ch (sliceIdx l.yield_idx l.batch_size k) = some ms ∧
           ms.length = (sliceIdx l.yield_idx l.batch_size k).length ∧
           t.length = (sliceIdx l.yield_idx l.batch_size k).length ∧
           (∀ m ∈ t, m.length = maxLenOf ms) ∧
           (∀ m ∈ t, ∀ r ∈ m, r.length = d) ∧
           maxLenOf ms ≤ l.max_seq_len ∧
           (∀ m ∈ ms, m.length ≤ maxLenOf ms) ∧
           (∃ m ∈ ms, m.length = maxLenOf ms) ∧
           (∀ j m, ms.get? j = some m →
              t.get? j = some (m ++
                List.replicate (maxLenOf ms - m.length) (List.replicate d 0))))) := by
  constructor
  · intro arts lp ts ps reg maxLen B sh perm l k y xs li l' hmk hnext
    have hok := train_init_ChannelOK hmk
    have hgp := (train_next_ok_inv hnext).2.2.2.1
    obtain ⟨hlen, hpt⟩ := gatherPad_spec hok hgp
    refine ⟨hlen, ?_⟩
    intro c ch t hc ht
    obtain ⟨ms, d, h1, h2, h3, h4, h5, h6, h7, h8, h9, h10⟩ := hpt c ch t hc ht
    exact ⟨ms, d, h1, h2, h4, h5, h6, h7, h8, h9, h10⟩
  · intro arts ts ps reg maxLen B l k xs li l' hmk hnext
    have hok := test_init_ChannelOK hmk
    have hgp := (test_next_ok_inv hnext).2.2.1
    obtain ⟨hlen, hpt⟩ := gatherPad_spec hok hgp
    refine ⟨hlen, ?_⟩
    intro c ch t hc ht
    obtain ⟨ms, d, h1, h2, h3, h4, h5, h6, h7, h8, h9, h10⟩ := hpt c ch t hc ht
    exact ⟨ms, d, h1, h2, h4, h5, h6, h7, h8, h9, h10⟩

/-- Witness for C3: the first batch of `ltrain5` has one padded tensor per
channel, and channel 0's tensor pads the length-1 sample `[[4]]` with two
zero rows up to the window maximum 3 (window `[0,1]`, lengths 3 and 1). -/
theorem C3_witness :
    train_data_loader.next { ltrain5 with cur_batch := 0 } = .ok (some (exB1, exL1)) ∧
    exB1.2.1.get? 0 = some [[[1], [2], [3]], [[4], [0], [0]]] ∧
    exB1.2.1.length = ltrain5.inp_seq.length := by
  have h := C3_batch_padding.1 exArts "y.npy" ["prod", "crea"] ["a.pkl", "b.pkl"]
    exReg 100 2 false id ltrain5 0 exB1.1 exB1.2.1 exB1.2.2 exL1 rfl
    (show train_data_loader.next { ltrain5 with cur_batch := 0 } =
      .ok (some ((exB1.1, exB1.2.1, exB1.2.2), exL1)) from rfl)
  exact ⟨rfl, rfl, h.1⟩

/-- C1 (amended): for every constructed loader all of whose channels hold
at least `len` samples (in particular whenever the sample counts agree),
a full pass from a fresh `iter` yields exactly `n_batch` batches and ends
cleanly, and the index windows partition `[0, len)`: their concatenation
is a permutation of `range len`, their lengths sum to `len`, and every
sample index below `len` occurs in exactly one window (none above);
for identity and shuffled permutations, on both loaders.  (As stated the
claim fails: a constructed loader with a short channel aborts its pass
with an index error — see the counterexample.) -/
theorem C1_pass_partition :
    (∀ (arts : Artifacts) (lp : String) (ts ps : List String)
       (reg : List (String × String)) (maxLen B : Nat) (sh : Bool)
       (perm : List Nat → List Nat) (l : train_data_loader),
       (∀ xs, (perm xs).Perm xs) →
       train_data_loader.init arts lp ts ps reg maxLen B sh perm = .ok l →
       (∀ ch ∈ l.inp_seq, l.len ≤ ch.length) →
       (fullPassT l).1.length = l.n_batch ∧
       (fullPassT l).2.1 = none ∧
       ((List.range l.n_batch).map (sliceIdx l.yield_idx l.batch_size)).flatten.Perm
         (List.range l.len) ∧
       ((List.range l.n_batch).map
         fun k => (sliceIdx l.yield_idx l.batch_size k).length).sum = l.len ∧
       (∀ i, i < l.len →
         ((List.range l.n_batch).map (sliceIdx l.yield_idx l.batch_size)).flatten.count i
           = 1) ∧
       (∀ i, l.len ≤ i →
         ((List.range l.n_batch).map (sliceIdx l.yield_idx l.batch_size)).flatten.count i
           = 0)) ∧
    (∀ (arts : Artifacts) (ts ps : List String) (reg : List (String × String))
       (maxLen B : Nat) (l : test_data_loader),
       test_data_loader.init arts ts ps reg maxLen B = .ok l →
       (∀ ch ∈ l.inp_seq, l.len ≤ ch.length) →
       (fullPassE l).1.length = l.n_batch ∧
       (fullPassE l).2.1 = none ∧
       ((List.range l.n_batch).map (sliceIdx l.yield_idx l.batch_size)).flatten.Perm
         (List.range l.len) ∧
       ((List.range l.n_batch).map
         fun k => (sliceIdx l.yield_idx l.batch_size k).length).sum = l.len ∧
       (∀ i, i < l.len →
         ((List.range l.n_batch).map (sliceIdx l.yield_idx l.batch_size)).flatten.count i
           = 1) ∧
       (∀ i, l.len ≤ i →
         ((List.range l.n_batch).map (sliceIdx l.yield_idx l.batch_size)).flatten.count i
           = 0)) := by
  constructor
  · intro arts lp ts ps reg maxLen B sh perm l hperm hmk hch
    obtain ⟨h1, h2, hok, h6, hB, hyPerm, hlab, hlast⟩ := train_init_WF hmk hperm
    have h4 : ∀ i ∈ l.yield_idx, i < l.len := fun i hi =>
      List.mem_range.mp (hyPerm.mem_iff.mp hi)
    have hylen : l.yield_idx.length = l.len := by
      rw [hyPerm.length_eq, List.length_range]
    have hpass := passT_spec l.n_batch l.iter h1 h2 hch h4 hok h6 hB
      (Nat.zero_le _) (Nat.sub_le _ _)
    have hflat := flatten_sliceIdx hB l.n_batch l.yield_idx h6.symm
    refine ⟨by simpa using hpass.1, hpass.2.1, ?_, ?_, ?_, ?_⟩
    · rw [hflat]; exact hyPerm
    · have hmm : (List.range l.n_batch).map
          (fun k => (sliceIdx l.yield_idx l.batch_size k).length) =
          ((List.range l.n_batch).map (sliceIdx l.yield_idx l.batch_size)).map
            List.length := by
        rw [List.map_map]
        rfl
      rw [hmm, ← List.length_flatten, hflat, hylen]
    · intro i hi
      rw [hflat, hyPerm.count_eq]
      exact List.count_eq_one_of_mem (List.nodup_range _) (List.mem_range.mpr hi)
    · intro i hi
      rw [hflat, hyPerm.count_eq]
      refine List.count_eq_zero.mpr ?_
      intro hmem
      have := List.mem_range.mp hmem
      omega
  · intro arts ts ps reg maxLen B l hmk hch
    obtain ⟨h2, hok, h6, hB, hyid, hlast⟩ := test_init_WF hmk
    have h4 : ∀ i ∈ l.yield_idx, i < l.len := by
      intro i hi
      rw [hyid] at hi
      exact List.mem_range.mp hi
    have hyPerm : l.yield_idx.Perm (List.range l.len) := by
      rw [hyid]
    have hylen : l.yield_idx.length = l.len := by
      rw [hyid, List.length_range]
    have hpass := passE_spec l.n_batch l.iter h2 hch h4 hok h6 hB
      (Nat.zero_le _) (Nat.sub_le _ _)
    have hflat := flatten_sliceIdx hB l.n_batch l.yield_idx h6.symm
    refine ⟨by simpa using hpass.1, hpass.2.1, ?_, ?_, ?_, ?_⟩
    · rw [hflat]; exact hyPerm
    · have hmm : (List.range l.n_batch).map
          (fun k => (sliceIdx l.yield_idx l.batch_size k).length) =
          ((List.range l.n_batch).map (sliceIdx l.yield_idx l.batch_size)).map
            List.length := by
        rw [List.map_map]
        rfl
      rw [hmm, ← List.length_flatten, hflat, hylen]
    · intro i hi
      rw [hflat, hyPerm.count_eq]
      exact List.count_eq_one_of_mem (List.nodup_range _) (List.mem_range.mpr hi)
    · intro i hi
      rw [hflat, hyPerm.count_eq]
      refine List.count_eq_zero.mpr ?_
      intro hmem
      have := List.mem_range.mp hmem
      omega

/-- Witness for C1 (amended): the shuffled 5-sample training loader and
the 5-sample test loader both complete a clean pass of `n_batch` batches,
and sample 0 sits in exactly one window of the shuffled pass. -/
theorem C1_witness :
    (fullPassT ltrain5s).1.length = ltrain5s.n_batch ∧
    (fullPassT ltrain5s).2.1 = none ∧
    (fullPassE ltest5).1.length = ltest5.n_batch ∧
    (fullPassE ltest5).2.1 = none ∧
    ((List.range ltrain5s.n_batch).map
      (sliceIdx ltrain5s.yield_idx ltrain5s.batch_size)).flatten.count 0 = 1 := by
  have ht := C1_pass_partition.1 exArts "y.npy" ["prod", "crea"] ["a.pkl", "b.pkl"]
    exReg 100 2 true List.reverse ltrain5s (fun xs => List.reverse_perm xs)
    rfl (by decide)
  have he := C1_pass_partition.2 exArts ["prod", "crea"] ["a.pkl", "b.pkl"]
    exReg 100 2 ltest5 rfl (by decide)
  exact ⟨ht.1, ht.2.1, he.1, he.2.1, ht.2.2.2.2.1 0 (by decide)⟩

/-- Counterexample to C1 as stated: `lbad` is a constructed loader
(`n_batch = 1`) whose full pass yields zero batches and aborts with an
index error, because its second channel holds no samples. -/
theorem C1_counterexample :
    train_data_loader.init exArts "one.npy" ["prod", "crea"] ["a1.pkl", "bad.pkl"] exReg
      100 1 false id = .ok lbad ∧
    lbad.n_batch = 1 ∧
    (fullPassT lbad).1.length = 0 ∧
    (fullPassT lbad).2.1 = some .indexError :=
  ⟨rfl, rfl, rfl, rfl⟩

/-- Witness for C10: the artifact whose only raw sequence is empty fails
construction (with the stack error), and the constructed 5-sample loader
has a nonnegative first last-index entry. -/
theorem C10_witness :
    train_data_loader.init exArts "one.npy" ["prod"] ["empty.pkl"] exReg
      100 1 false id ≠ .ok junkTrain ∧
    train_data_loader.init exArts "one.npy" ["prod"] ["empty.pkl"] exReg
      100 1 false id = .error .valueError ∧
    0 ≤ ltrain5.inp_last_idx.headD 0 := by
  refine ⟨C10_empty_sequence.1 exArts "one.npy" ["prod"] ["empty.pkl"] exReg 100 1
    false id "prod" "empty.pkl" [[]] (by decide) rfl (by decide) junkTrain, rfl, ?_⟩
  have h := (C10_empty_sequence.2 exArts "y.npy" ["prod", "crea"] ["a.pkl", "b.pkl"]
    exReg 100 2 false id ltrain5 rfl).2
  exact h (ltrain5.inp_last_idx.headD 0) (by decide)

end DataLoader

